import Mathlib

/-!
Verification of the TruthCheck claim-scoring pipeline.

This file shallowly embeds the scoring pipeline of the TruthCheck browser
extension (claim extraction, normalization, multi-source scoring with weighted
aggregation, and the authoritative-source override engine) and proves the
spec-level properties about it.

Modelling conventions:
* JavaScript numbers are modelled as rationals (`ℚ`); all arithmetic in the
  embedded code paths is elementary (+, *, /, comparisons, `Math.round`,
  `Math.min`/`Math.max`), so the rational model tracks the source exactly up
  to floating-point rounding noise, which none of the verified properties
  depend on.
* `Math.round` is JavaScript round-half-up, `⌊x + 1/2⌋`.
* Asynchronous adapter calls are modelled by passing each adapter's settled
  outcome (`Except String _` - an exception message or a result payload) into
  the synchronous aggregation skeleton, which is exactly what
  `Promise.allSettled` delivers to the aggregation code.
* Strings are processed as `List Char`; the repository only manipulates
  ASCII-range text in the verified paths.
-/

namespace TruthCheck

/-- JavaScript `Math.round`: round half towards positive infinity. -/
def jsRound (q : ℚ) : ℚ := ((⌊q + 1/2⌋ : ℤ) : ℚ)

/-! ## Scorer (src/pipeline/scorer.js, four-source variant)

The `Scorer` class collects one component per enabled evidence source into a
`scores` object and combines them with `calculateFinalScore` /
`calculateOverallConfidence`.  A component is modelled by `SourceScore`;
presentation-only fields of the JavaScript objects (explanations, urls,
factor lists, timestamps) are omitted because no verified property reads
them. -/

/-- One evidence-source component: `{score, confidence, error?}`. -/
structure SourceScore where
  score : ℚ
  confidence : String
  error : Option String
deriving DecidableEq, Repr

/-- The `scores` object built by `Scorer.scoreClaim`: one optional component
per evidence source (absent when the source is disabled). -/
structure Components where
  fact_checker : Option SourceScore
  source_credibility : Option SourceScore
  scholarly : Option SourceScore
  coherence : Option SourceScore
deriving DecidableEq, Repr

/-- `this.weights` of the four-source `Scorer` (`CONFIG.scoring.*.weight`:
fact_checker 0.35, source_credibility 0.20, scholarly 0.30, coherence 0.15);
`this.weights[component] || 0` yields 0 for any other key. -/
def weights (component : String) : ℚ :=
  if component = "fact_checker" then 35/100
  else if component = "source_credibility" then 20/100
  else if component = "scholarly" then 30/100
  else if component = "coherence" then 15/100
  else 0

/-- `Object.entries(scores)` restricted to the components that are present.
(The JS object is keyed by exactly these four names; insertion order does not
affect any of the sums computed from it.) -/
def componentEntries (c : Components) : List (String × SourceScore) :=
  [("fact_checker", c.fact_checker),
   ("source_credibility", c.source_credibility),
   ("scholarly", c.scholarly),
   ("coherence", c.coherence)].filterMap
    (fun p => p.2.map (fun s => (p.1, s)))

/-- The numeric scores reported by the present components. -/
def reportedScores (c : Components) : List ℚ :=
  (componentEntries c).map (fun e => e.2.score)

/-- `Scorer.calculateFinalScore`: weighted sum over the components that carry
a numeric score, divided by the sum of their weights, rounded; neutral `5`
when no weight accumulated.  (In the model every present component's `score`
is a number, matching every assignment site in the source.) -/
def calculateFinalScore (c : Components) : ℚ :=
  let entries := componentEntries c
  let totalWeight := (entries.map (fun e => weights e.1)).sum
  let weightedSum := (entries.map (fun e => e.2.score * weights e.1)).sum
  if totalWeight = 0 then 5 else jsRound (weightedSum / totalWeight)

/-- The numeric value of a confidence label inside
`Scorer.calculateOverallConfidence` (`high→1, medium→0.6, low→0.3,
default→0.5`). -/
def confidenceValue (confidence : String) : ℚ :=
  if confidence = "high" then 1
  else if confidence = "medium" then 6/10
  else if confidence = "low" then 3/10
  else 5/10

/-- `Scorer.calculateOverallConfidence`: average the per-component confidence
values (components with an empty - falsy - confidence string are filtered
out) and bucket the mean: `≥0.8→high, ≥0.5→medium`, else `low`; `low` when
no component contributed. -/
def calculateOverallConfidence (c : Components) : String :=
  let confidences := ((componentEntries c).filter
      (fun e => e.2.confidence ≠ "")).map (fun e => confidenceValue e.2.confidence)
  if confidences = [] then "low"
  else
    let avgConfidence := confidences.sum / (confidences.length : ℚ)
    if avgConfidence ≥ 8/10 then "high"
    else if avgConfidence ≥ 5/10 then "medium"
    else "low"

/-- A fact-checker hit as consumed by `scoreFromFactCheckers` (fields of the
router's result that the scorer reads). -/
structure FactCheckResult where
  verdict : ℚ
  source : String
deriving DecidableEq, Repr

/-- The credibility router result as consumed by `scoreFromCredibility`. -/
structure CredibilityResult where
  overallScore : ℚ
  overallConfidence : String
deriving DecidableEq, Repr

/-- The scholarly-evidence assessment as consumed by `scoreFromScholarly`. -/
structure EvidenceAssessment where
  overall_score : ℚ
  confidence : String
deriving DecidableEq, Repr

/-- The coherence analysis as consumed by `scoreFromCoherence`. -/
structure CoherenceAnalysis where
  coherence_score : ℚ
deriving DecidableEq, Repr

/-- `Scorer.scoreFromFactCheckers`: on success a high-confidence component
with the verdict (or neutral low when no fact-check was found); a thrown
error is caught and becomes `{score: 5, confidence: low, error: message}`. -/
def scoreFromFactCheckers (outcome : Except String (Option FactCheckResult)) :
    SourceScore :=
  match outcome with
  | .ok (some result) => ⟨result.verdict, "high", none⟩
  | .ok none => ⟨5, "low", none⟩
  | .error e => ⟨5, "low", some e⟩

/-- `Scorer.scoreFromCredibility`: success copies `result.overall`; a thrown
error becomes the neutral low-confidence component with the message. -/
def scoreFromCredibility (outcome : Except String CredibilityResult) :
    SourceScore :=
  match outcome with
  | .ok result => ⟨result.overallScore, result.overallConfidence, none⟩
  | .error e => ⟨5, "low", some e⟩

/-- `Scorer.scoreFromScholarly`: success copies the assessment; a thrown
error becomes the neutral low-confidence component with the message. -/
def scoreFromScholarly (outcome : Except String EvidenceAssessment) :
    SourceScore :=
  match outcome with
  | .ok assessment => ⟨assessment.overall_score, assessment.confidence, none⟩
  | .error e => ⟨5, "low", some e⟩

/-- `Scorer.scoreFromCoherence`: success yields a medium-confidence component
with the coherence score; a thrown error becomes the neutral low one. -/
def scoreFromCoherence (outcome : Except String CoherenceAnalysis) :
    SourceScore :=
  match outcome with
  | .ok result => ⟨result.coherence_score, "medium", none⟩
  | .error e => ⟨5, "low", some e⟩

/-- `this.enabled` flags of the scorer (`CONFIG.scoring.*.enabled`). -/
structure EnabledSources where
  fact_checker : Bool
  source_credibility : Bool
  scholarly : Bool
  coherence : Bool
deriving DecidableEq, Repr

/-- The settled outcome of each adapter call for one claim (what
`Promise.allSettled` hands back to the aggregation code). -/
structure AdapterOutcomes where
  fact_checker : Except String (Option FactCheckResult)
  source_credibility : Except String CredibilityResult
  scholarly : Except String EvidenceAssessment
  coherence : Except String CoherenceAnalysis
deriving Repr

/-- The record returned by `Scorer.scoreClaim` (timestamp omitted). -/
structure AggregateScoreResult where
  components : Components
  final : ℚ
  confidence : String
deriving DecidableEq, Repr

/-- `Scorer.scoreClaim` (cache misses): run each enabled adapter, convert its
outcome to a component via the per-adapter `scoreFromX` (whose catch branch
absorbs the adapter's exception), then aggregate. -/
def scoreClaim (enabled : EnabledSources) (outcomes : AdapterOutcomes) :
    AggregateScoreResult :=
  let components : Components :=
    { fact_checker :=
        if enabled.fact_checker then some (scoreFromFactCheckers outcomes.fact_checker)
        else none
      source_credibility :=
        if enabled.source_credibility then
          some (scoreFromCredibility outcomes.source_credibility)
        else none
      scholarly :=
        if enabled.scholarly then some (scoreFromScholarly outcomes.scholarly)
        else none
      coherence :=
        if enabled.coherence then some (scoreFromCoherence outcomes.coherence)
        else none }
  { components := components
    final := calculateFinalScore components
    confidence := calculateOverallConfidence components }

/-! ## Override engine (OverrideEngine) -/

/-- `OverrideEngine.calculateOverrideScore`: supports→9, contradicts→2,
tangential→5, default→5. -/
def calculateOverrideScore (relationship : String) : ℚ :=
  if relationship = "supports" then 9
  else if relationship = "contradicts" then 2
  else if relationship = "tangential" then 5
  else 5

/-- A validated override candidate (fields of the objects accumulated in
`validOverrides` that the selection step reads). -/
structure ValidOverride where
  source : String
  url : String
  relationship : String
  confidence : ℚ
  reasoning : String
deriving DecidableEq, Repr

/-- The record returned by `OverrideEngine.checkOverride` on success
(`explanation` string omitted). -/
structure OverrideResult where
  score : ℚ
  confidence : String
  source : String
  url : String
  relationship : String
deriving DecidableEq, Repr

/-- The selection core of `OverrideEngine.checkOverride`: `null` when no
valid override survived, otherwise the highest-confidence one
(`validOverrides.reduce((best, current) => current.confidence >
best.confidence ? current : best)`) converted to an `OverrideResult` whose
score is derived from the relationship. -/
def checkOverrideCore (validOverrides : List ValidOverride) :
    Option OverrideResult :=
  match validOverrides with
  | [] => none
  | v :: vs =>
    let bestOverride := vs.foldl
      (fun best current =>
        if best.confidence < current.confidence then current else best) v
    some
      { score := calculateOverrideScore bestOverride.relationship
        confidence := "high"
        source := bestOverride.source
        url := bestOverride.url
        relationship := bestOverride.relationship }

/-- JavaScript `a || b` on an optional number `a` (`undefined` and `0` are
falsy). -/
def jsOrNum (a : Option ℚ) (b : ℚ) : ℚ :=
  match a with
  | none => b
  | some x => if x = 0 then b else x

/-- The `finalScore` field assembled per claim in the content script's batch
loop: `finalScore: override?.score || scores.final`. -/
def finalScoreOf (override : Option OverrideResult)
    (scores : AggregateScoreResult) : ℚ :=
  jsOrNum (override.map (fun o => o.score)) scores.final

/-! ## Text utilities

`List Char` versions of the string operations the pipeline uses.  JavaScript
regular expressions are embedded through a small nondeterministic matcher
(`Matcher` below); each embedded pattern is documented with the original
regex at its definition site. -/

/-- JS `\w` character class: `[A-Za-z0-9_]`. -/
def isWordChar (c : Char) : Bool := c.isAlphanum || c = '_'

/-- JS `\s` character class (ASCII part: space, tab, newline, carriage
return, vertical tab, form feed). -/
def isWs (c : Char) : Bool :=
  c = ' ' || c = '\t' || c = '\n' || c = '\r' || c = '\x0b' || c = '\x0c'

/-- `[A-Z]`. -/
def isUpperAZ (c : Char) : Bool := 'A' ≤ c && c ≤ 'Z'

/-- `[a-z]`. -/
def isLowerAZ (c : Char) : Bool := 'a' ≤ c && c ≤ 'z'

/-- Lowercased character list of a string (JS `toLowerCase`; the verified
paths only handle ASCII text). -/
def lowerChars (s : String) : List Char := s.toList.map Char.toLower

/-- Does `s` start with `w`? -/
def leadsWith : List Char → List Char → Bool
  | [], _ => true
  | _ :: _, [] => false
  | a :: w, b :: s => a = b && leadsWith w s

/-- JS `String.prototype.includes` on char lists. -/
def containsSub (needle : List Char) : List Char → Bool
  | [] => leadsWith needle []
  | s@(_ :: r) => leadsWith needle s || containsSub needle r

/-- JS `String.prototype.indexOf` (first index of `needle` in `hay`, `-1`
when absent). -/
def indexOfSub (needle hay : List Char) : Int :=
  go 0 hay
where
  go (i : Int) : List Char → Int
    | [] => if leadsWith needle [] then i else -1
    | s@(_ :: r) => if leadsWith needle s then i else go (i + 1) r

/-- JS `String.prototype.trim` (whitespace stripped from both ends). -/
def trimList (s : List Char) : List Char :=
  ((s.dropWhile isWs).reverse.dropWhile isWs).reverse

/-- Does the char list end with `c`? -/
def endsWithChar (s : List Char) (c : Char) : Bool :=
  s.getLast? = some c

/-- JS `str.split(/\s+/)`: pieces between maximal whitespace runs, keeping
the empty leading/trailing pieces the JS semantics produces (e.g.
`" a ".split(/\s+/) = ["", "a", ""]`). -/
def splitWsGo (inWs : Bool) (cur : List Char) : List Char → List (List Char)
  | [] => [cur.reverse]
  | c :: r =>
    if isWs c then
      if inWs then splitWsGo true [] r
      else cur.reverse :: splitWsGo true [] r
    else splitWsGo false (c :: cur) r

/-- See `splitWsGo` (the flag records being inside a whitespace run so that
a run contributes one split). -/
def splitWsJS (s : List Char) : List (List Char) :=
  splitWsGo false [] s

/-- Collapse every maximal whitespace run to a single space
(JS `replace(/\s+/g, ' ')`). -/
def collapseWs (s : List Char) : List Char :=
  s.foldr
    (fun c acc =>
      if isWs c then (if acc.head? = some ' ' then acc else ' ' :: acc)
      else c :: acc) []

/-- Scan for `wordRuns`: `run` is the word-character run read so far. -/
def wordRunsGo (run : List Char) : List Char → List (List Char)
  | [] => if run = [] then [] else [run]
  | c :: r =>
    if isWordChar c then wordRunsGo (run ++ [c]) r
    else (if run = [] then [] else [run]) ++ wordRunsGo [] r

/-- The maximal runs of word characters of a string, in order.  A JS regex
`\bw\b` for a word-character word `w` matches exactly the maximal runs equal
to `w` (the two boundaries force the match to span a whole run). -/
def wordRuns (s : List Char) : List (List Char) :=
  wordRunsGo [] s

/-- `str.replace(new RegExp(escape(w) + '', 'g'), rep)` for a literal
pattern: replace every non-overlapping occurrence of `pat`, scanning left to
right.  Fuelled recursion; `fuel = s.length` suffices for non-empty `pat`. -/
def replaceAllGo (pat rep : List Char) : Nat → List Char → List Char
  | _, [] => []
  | 0, s => s
  | fuel + 1, s@(c :: r) =>
    if pat ≠ [] && leadsWith pat s then rep ++ replaceAllGo pat rep fuel (s.drop pat.length)
    else c :: replaceAllGo pat rep fuel r

/-- Replace every occurrence of the literal `pat` by `rep`. -/
def replaceAll (pat rep s : List Char) : List Char :=
  replaceAllGo pat rep s.length s

/-! ### A small nondeterministic matcher for the embedded regexes

A `Matcher` consumes a prefix of its input and returns the list of possible
remainders (one per way the pattern can match at the start of the input).
Patterns are tested for existence of a match anywhere (`someMatch`), or with
word-boundary anchoring (`someMatchWB`). -/

/-- A pattern fragment: all remainders after matching a prefix. -/
def Matcher : Type := List Char → List (List Char)

/-- Empty pattern. -/
def mEps : Matcher := fun s => [s]

/-- Single character from a class. -/
def mOne (f : Char → Bool) : Matcher := fun s =>
  match s with
  | [] => []
  | c :: r => if f c then [r] else []

/-- Literal character sequence. -/
def mLit (w : List Char) : Matcher := fun s =>
  if leadsWith w s then [s.drop w.length] else []

/-- Literal string. -/
def mLitS (w : String) : Matcher := mLit w.toList

/-- Concatenation. -/
def mSeq (a b : Matcher) : Matcher := fun s => ((a s).map b).flatten

/-- Concatenation of a list of fragments. -/
def mSeqs (l : List Matcher) : Matcher := l.foldr mSeq mEps

/-- Alternation. -/
def mAlt (l : List Matcher) : Matcher := fun s => (l.map (fun m => m s)).flatten

/-- Alternation of literal strings. -/
def mAltLits (ws : List String) : Matcher := mAlt (ws.map mLitS)

/-- One or more characters from a class (`X+` for a character class `X`):
remainders after 1, 2, ... consumed characters. -/
def mClsPlus (f : Char → Bool) : List Char → List (List Char)
  | [] => []
  | c :: r => if f c then r :: mClsPlus f r else []

/-- Zero or more characters from a class (`X*`). -/
def mClsStar (f : Char → Bool) : Matcher := fun s => s :: mClsPlus f s

/-- Optional fragment (`P?`). -/
def mOpt (m : Matcher) : Matcher := fun s => s :: m s

/-- `\s+`. -/
def mWsPlus : Matcher := mClsPlus isWs

/-- `\s*`. -/
def mWsStar : Matcher := mClsStar isWs

/-- Between `lo` and `hi` characters of a class (`X{lo,hi}`). -/
def mRep (f : Char → Bool) (lo hi : Nat) : Matcher :=
  mAlt (((List.range (hi + 1 - lo)).map (fun k => lo + k)).map
    (fun n => mSeqs (List.replicate n (mOne f))))

/-- One or more repetitions of a general fragment (`P+`), fuelled by the
input length; every use instantiates `m` with fragments that consume at
least one character, for which the fuel is sufficient. -/
def mPlusGo (m : Matcher) : Nat → Matcher
  | 0 => fun _ => []
  | n + 1 => fun s => ((m s).map (fun r => r :: mPlusGo m n r)).flatten

/-- `P+` for a fragment `P` that always consumes input. -/
def mPlusOf (m : Matcher) : Matcher := fun s => mPlusGo m (s.length + 1) s

/-- `regex.test(s)` for an unanchored pattern: does the pattern match
starting at some position? -/
def someMatch (m : Matcher) : List Char → Bool
  | [] => !(m []).isEmpty
  | s@(_ :: r) => !(m s).isEmpty || someMatch m r

/-- Is there a word boundary between `prev` (the character before the match
position) and a match that begins with a word character? -/
def boundaryBeforeOK : Option Char → Bool
  | none => true
  | some c => !isWordChar c

/-- Is there a word boundary after a match that ends in a word character,
given the remainder of the input? -/
def remBoundaryOK : List Char → Bool
  | [] => true
  | c :: _ => !isWordChar c

/-- Matching driver for patterns of the form `\bP` or `\bP\b` where `P`
begins and ends with word characters: scan every position with a word
boundary before it; when `endB` is set the remainder must also start at a
word boundary. -/
def someMatchWBGo (endB : Bool) (m : Matcher) : Option Char → List Char → Bool
  | prev, [] =>
    boundaryBeforeOK prev && (m []).any (fun rem => !endB || remBoundaryOK rem)
  | prev, s@(c :: r) =>
    (boundaryBeforeOK prev && (m s).any (fun rem => !endB || remBoundaryOK rem))
      || someMatchWBGo endB m (some c) r

/-- `regex.test(s)` for a `\b…(\b)` pattern. -/
def someMatchWB (endB : Bool) (m : Matcher) (s : List Char) : Bool :=
  someMatchWBGo endB m none s

/-! ## Claim normalizer (src/pipeline/normalizer.js, heuristic path) -/

/-- The filler words removed by `ClaimNormalizer.simplifyClaim`. -/
def fillerWords : List String :=
  ["the", "a", "an", "and", "or", "but", "in", "on", "at", "to", "for",
   "of", "with", "by"]

/-- Scan for `removeWord`: `run` is the word-character run read so far, and
is dropped from the output exactly when it equals the target word. -/
def removeWordGo (w run : List Char) : List Char → List Char
  | [] => if run = w then [] else run
  | c :: r =>
    if isWordChar c then removeWordGo w (run ++ [c]) r
    else (if run = w then [] else run) ++ c :: removeWordGo w [] r

/-- `simplified.replace(new RegExp('\\b' + word + '\\b', 'g'), '')` for a
word of word characters: remove exactly the maximal word-character runs equal
to `w` (the two `\b` anchors force every match to span a whole run, and
removing a whole run cannot merge the neighbouring runs because a removed
run is flanked by non-word characters or string ends). -/
def removeWord (w s : List Char) : List Char :=
  removeWordGo w [] s

/-- Characters kept by the final `replace(/[^\w\s\-+%$]/g, '')` of
`simplifyClaim`. -/
def keepChar (c : Char) : Bool :=
  isWordChar c || isWs c || c = '-' || c = '+' || c = '%' || c = '$'

/-- `ClaimNormalizer.simplifyClaim`: lowercase, remove each filler word (as a
whole word), collapse whitespace runs to single spaces, trim, then strip the
punctuation outside `[\w\s\-+%$]`. -/
def simplifyClaim (claim : String) : String :=
  let lowered := claim.toList.map Char.toLower
  let noFiller := fillerWords.foldl (fun acc w => removeWord w.toList acc) lowered
  let collapsed := trimList (collapseWs noFiller)
  String.mk (collapsed.filter keepChar)

/-- One extracted entity; `unit` is the empty string when the source object
carries no unit (`match[2] || ''`, and the non-number entity kinds have no
unit at all). -/
structure Entity where
  etype : String
  value : String
  unit : String
  text : String
deriving DecidableEq, Repr

/-- The unit alternatives of the number-entity regex
`/(\d+(?:\.\d+)?)\s*(%|percent|million|billion|thousand)?/g` (tried in
alternation order, case-sensitively - the regex has no `i` flag). -/
def numberUnitAlternatives : List String :=
  ["%", "percent", "million", "billion", "thousand"]

/-- One number-entity match starting at a digit: greedy digits, optional
`.digits` fraction, greedy whitespace, then the first unit alternative that
fits (or none).  Returns the entity and the remainder of the input. -/
def numberEntityAt (l : List Char) : Entity × List Char :=
  let intPart := l.takeWhile Char.isDigit
  let r1 := l.dropWhile Char.isDigit
  let (valueChars, r2) :=
    match r1 with
    | '.' :: r1' =>
      if (r1'.head?.map Char.isDigit).getD false then
        (intPart ++ '.' :: r1'.takeWhile Char.isDigit, r1'.dropWhile Char.isDigit)
      else (intPart, r1)
    | _ => (intPart, r1)
  let wsRun := r2.takeWhile isWs
  let r3 := r2.dropWhile isWs
  match numberUnitAlternatives.find? (fun u => leadsWith u.toList r3) with
  | some u =>
    (⟨"number", String.mk valueChars, u,
      String.mk (valueChars ++ wsRun ++ u.toList)⟩, r3.drop u.length)
  | none =>
    (⟨"number", String.mk valueChars, "", String.mk (valueChars ++ wsRun)⟩, r3)

/-- All number-entity matches, scanning left to right (fuelled; each match
consumes at least one character, so `fuel = l.length` suffices). -/
def numberEntitiesGo : Nat → List Char → List Entity
  | 0, _ => []
  | _, [] => []
  | fuel + 1, l@(c :: r) =>
    if c.isDigit then
      let (e, rest) := numberEntityAt l
      e :: numberEntitiesGo fuel rest
    else numberEntitiesGo fuel r

/-- All quoted-phrase matches of `/"([^"]+)"/g`: a non-empty run between two
straight double quotes. -/
def quoteEntitiesGo : Nat → List Char → List Entity
  | 0, _ => []
  | _, [] => []
  | fuel + 1, c :: r =>
    if c = '"' then
      let content := r.takeWhile (fun d => d ≠ '"')
      let rest := r.dropWhile (fun d => d ≠ '"')
      match rest with
      | '"' :: r2 =>
        if content = [] then quoteEntitiesGo fuel r
        else
          ⟨"quote", String.mk content, "",
            String.mk ('"' :: content ++ ['"'])⟩ :: quoteEntitiesGo fuel r2
      | _ => quoteEntitiesGo fuel r
    else quoteEntitiesGo fuel r

/-- Capitalised words skipped by the proper-noun extraction. -/
def properNounSkipWords : List String :=
  ["The", "A", "An", "And", "Or", "But", "In", "On", "At", "To", "For",
   "Of", "With", "By"]

/-- `ClaimNormalizer.extractEntities`: numbers (with optional unit), quoted
phrases, proper nouns (`/\b([A-Z][a-z]+)\b/g`, i.e. the maximal word runs of
exactly that shape, minus a skip list) and scientific terms
(`/\b(vaccine|virus|COVID|coronavirus|pandemic|epidemic|clinical|trial|study|research)\b/gi`),
in that order. -/
def extractEntities (claim : String) : List Entity :=
  let chars := claim.toList
  let numberEntities := numberEntitiesGo chars.length chars
  let quoteEntities := quoteEntitiesGo chars.length chars
  let properNounEntities := (wordRuns chars).filterMap (fun run =>
    match run with
    | c :: rest =>
      if isUpperAZ c && rest ≠ [] && rest.all isLowerAZ
          && !properNounSkipWords.contains (String.mk run) then
        some (⟨"proper_noun", String.mk run, "", String.mk run⟩ : Entity)
      else none
    | [] => none)
  let scientificTerms :=
    ["vaccine", "virus", "covid", "coronavirus", "pandemic", "epidemic",
     "clinical", "trial", "study", "research"]
  let scientificEntities := (wordRuns chars).filterMap (fun run =>
    if scientificTerms.contains (String.mk (run.map Char.toLower)) then
      some (⟨"scientific", String.mk run, "", String.mk run⟩ : Entity)
    else none)
  numberEntities ++ quoteEntities ++ properNounEntities ++ scientificEntities

/-- `ClaimNormalizer.buildSearchQueries`: the claim itself, the simplified
form when different, and the concatenated entity texts when any entity was
found; at most 3 queries. -/
def buildSearchQueries (claim : String) : List String :=
  let base := [claim]
  let simplified := simplifyClaim claim
  let withSimplified := base ++ (if simplified ≠ claim then [simplified] else [])
  let entities := extractEntities claim
  let withEntities := withSimplified ++
    (if entities ≠ [] then [String.intercalate " " (entities.map (fun e => e.text))]
     else [])
  withEntities.take 3

/-- `ClaimNormalizer.classifyClaimType`: keyword buckets over the lowercased
claim, first hit wins, `other` by default. -/
def classifyClaimType (claim : String) : String :=
  let lowerClaim := lowerChars claim
  if containsSub "vaccine".toList lowerClaim || containsSub "covid".toList lowerClaim
      || containsSub "virus".toList lowerClaim
      || containsSub "pandemic".toList lowerClaim then "health"
  else if containsSub "election".toList lowerClaim
      || containsSub "vote".toList lowerClaim
      || containsSub "president".toList lowerClaim
      || containsSub "government".toList lowerClaim
      || containsSub "policy".toList lowerClaim then "political"
  else if containsSub "study".toList lowerClaim
      || containsSub "research".toList lowerClaim
      || containsSub "experiment".toList lowerClaim
      || containsSub "data".toList lowerClaim
      || containsSub "statistics".toList lowerClaim then "scientific"
  else if containsSub "climate".toList lowerClaim
      || containsSub "environment".toList lowerClaim
      || containsSub "temperature".toList lowerClaim
      || containsSub "global warming".toList lowerClaim then "environmental"
  else if containsSub "economy".toList lowerClaim
      || containsSub "money".toList lowerClaim
      || containsSub "market".toList lowerClaim
      || containsSub "business".toList lowerClaim then "economic"
  else "other"

/-- The `NormalizedClaim` record. -/
structure NormalizedClaim where
  original_claim : String
  normalized_claim : String
  entities : List Entity
  search_queries : List String
  claim_type : String
  confidence : ℚ
deriving DecidableEq, Repr

/-- `ClaimNormalizer.normalizeHeuristic`: assemble the heuristic
normalization; confidence 0.5, boosted to 0.8 when entities were found. -/
def normalizeHeuristic (claim : String) : NormalizedClaim :=
  let entities := extractEntities claim
  { original_claim := claim
    normalized_claim := simplifyClaim claim
    entities := entities
    search_queries := buildSearchQueries claim
    claim_type := classifyClaimType claim
    confidence := if entities ≠ [] then 8/10 else 5/10 }

/-! ## Claim extractor (src/pipeline/claimExtractor.js)

The extractor variant whose heuristic path is
`extractClaims → extractClaimsHeuristic → tokenizeSentences /
scoreClaimLikelihood`, plus the superseded candidate scorer
`scoreClaimCandidate` and both `combineAndDeduplicateClaims` variants. -/

/-- `CONFIG.claim_extraction`, as a record.  The fields below
`exclude_patterns` are read only by `tokenizeSentences` and
`scoreClaimCandidate`; `src/foundation/config.js` does not define them (they
exist in the richer configuration embedded in the UI bundle), so
`foundationConfig` instantiates them with empty/neutral values and every
theorem about those functions quantifies over the whole configuration. -/
structure ClaimExtractionConfig where
  method : String
  heuristic_threshold : ℚ
  factual_verbs : List String
  claim_markers : List String
  min_claim_length : Nat
  max_claim_length : Nat
  abbreviations : List String
  exclude_patterns : List String
  opinion_markers : List String
  percentage_keywords : List String
  large_number_threshold : ℚ
  large_number_units : List String

/-- The `CONFIG.claim_extraction` of `src/foundation/config.js`. -/
def foundationConfig : ClaimExtractionConfig :=
  { method := "hybrid"
    heuristic_threshold := 6/10
    factual_verbs :=
      ["is", "was", "are", "were", "be", "been",
       "caused", "led", "resulted", "produced",
       "found", "discovered", "determined", "established",
       "proved", "demonstrated", "confirmed", "verified",
       "reported", "stated", "announced", "declared",
       "claimed", "asserted", "maintained", "argued",
       "shows", "indicates", "suggests", "implies",
       "reduces", "increases", "decreases", "improves",
       "costs", "saves", "generates", "creates"]
    claim_markers :=
      ["according to", "studies show", "research indicates",
       "experts say", "scientists have found", "data shows",
       "evidence suggests", "reports indicate", "findings reveal",
       "statistics show", "numbers indicate", "figures suggest"]
    min_claim_length := 20
    max_claim_length := 200
    abbreviations := []
    exclude_patterns := []
    opinion_markers := []
    percentage_keywords := []
    large_number_threshold := 0
    large_number_units := [] }

/-- The 13 `statisticalPatterns` regexes of `scoreClaimLikelihood` (all
carry the `i` flag, so they are applied to the lowercased sentence):
1. `/\d+%|\d+\s*percent/` 2. `/\$[\d,]+(\.\d+)?/`
3. `/[\d,]+\s*(people|cases|deaths|patients|citizens|workers|students|voters)/`
4. `/\d+\.\d+\s*(degrees?|years?|months?|days?|hours?|minutes?)/`
5. `/\d+\s*(times?|fold|percent)\s*(higher|lower|more|less|increase|decrease)/`
6. `/(increased|decreased|rose|fell|grew|declined|surged|plummeted)\s*by\s*\d+/`
7. `/(since|over|during|in)\s*\d{4}/`
8. `/(over|in)\s*(the\s*)?(past|last)\s*\d+\s*(years?|months?|decades?)/`
9. `/(millions?|billions?|thousands?)\s*of/` 10. `/\d+\s*(out\s*of|of)\s*\d+/`
11. `/\d{4}/` 12. `/\d+\s*(step|steps)/` 13. `/\d+\s*(other|others)/`.
Trailing `s?` alternatives are expanded (optional suffixes after which the
pattern ends never affect matchability, and both forms are listed where a
continuation follows). -/
def statisticalPatterns : List Matcher :=
  [mAlt [mSeqs [mClsPlus Char.isDigit, mLitS "%"],
         mSeqs [mClsPlus Char.isDigit, mWsStar, mLitS "percent"]],
   mSeqs [mLitS "$", mClsPlus (fun c => c.isDigit || c = ',')],
   mSeqs [mClsPlus (fun c => c.isDigit || c = ','), mWsStar,
          mAltLits ["people", "cases", "deaths", "patients", "citizens",
                    "workers", "students", "voters"]],
   mSeqs [mClsPlus Char.isDigit, mLitS ".", mClsPlus Char.isDigit, mWsStar,
          mAltLits ["degree", "year", "month", "day", "hour", "minute"]],
   mSeqs [mClsPlus Char.isDigit, mWsStar,
          mAltLits ["times", "time", "fold", "percent"], mWsStar,
          mAltLits ["higher", "lower", "more", "less", "increase", "decrease"]],
   mSeqs [mAltLits ["increased", "decreased", "rose", "fell", "grew",
                    "declined", "surged", "plummeted"],
          mWsStar, mLitS "by", mWsStar, mOne Char.isDigit],
   mSeqs [mAltLits ["since", "over", "during", "in"], mWsStar,
          mOne Char.isDigit, mOne Char.isDigit, mOne Char.isDigit,
          mOne Char.isDigit],
   mSeqs [mAltLits ["over", "in"], mWsStar,
          mOpt (mSeqs [mLitS "the", mWsStar]), mAltLits ["past", "last"],
          mWsStar, mClsPlus Char.isDigit, mWsStar,
          mAltLits ["year", "month", "decade"]],
   mSeqs [mAltLits ["millions", "million", "billions", "billion",
                    "thousands", "thousand"], mWsStar, mLitS "of"],
   mSeqs [mClsPlus Char.isDigit, mWsStar,
          mAlt [mSeqs [mLitS "out", mWsStar, mLitS "of"], mLitS "of"],
          mWsStar, mOne Char.isDigit],
   mSeqs [mOne Char.isDigit, mOne Char.isDigit, mOne Char.isDigit,
          mOne Char.isDigit],
   mSeqs [mClsPlus Char.isDigit, mWsStar, mAltLits ["step", "steps"]],
   mSeqs [mClsPlus Char.isDigit, mWsStar, mAltLits ["other", "others"]]]

/-- Does some statistical pattern match (the loop adds `0.2` once and
breaks)? -/
def hasStatisticalPattern (lower : List Char) : Bool :=
  statisticalPatterns.any (fun m => someMatch m lower)

/-- `/\b(vaccine|study|research|clinical|trial|evidence|data|statistics|analysis|experiment|survey|investigation|report|findings|results)\b/i`. -/
def hasScientificTerm (lower : List Char) : Bool :=
  someMatchWB true (mAltLits
    ["vaccine", "study", "research", "clinical", "trial", "evidence",
     "data", "statistics", "analysis", "experiment", "survey",
     "investigation", "report", "findings", "results"]) lower

/-- `/\b(higher|lower|more|less|best|worst|most|least|increase|decrease|better|worse|significant|dramatic|substantial)\b/i`. -/
def hasComparativeTerm (lower : List Char) : Bool :=
  someMatchWB true (mAltLits
    ["higher", "lower", "more", "less", "best", "worst", "most", "least",
     "increase", "decrease", "better", "worse", "significant", "dramatic",
     "substantial"]) lower

/-- `/\b(caused|led\s*to|resulted\s*in|due\s*to|because\s*of|as\s*a\s*result|consequently|therefore)\b/i`. -/
def hasTemporalCausalTerm (lower : List Char) : Bool :=
  someMatchWB true (mAlt
    [mLitS "caused",
     mSeqs [mLitS "led", mWsStar, mLitS "to"],
     mSeqs [mLitS "resulted", mWsStar, mLitS "in"],
     mSeqs [mLitS "due", mWsStar, mLitS "to"],
     mSeqs [mLitS "because", mWsStar, mLitS "of"],
     mSeqs [mLitS "as", mWsStar, mLitS "a", mWsStar, mLitS "result"],
     mLitS "consequently", mLitS "therefore"]) lower

/-- `/\b(always|never|all|every|none|no\s*one|everyone|everything|nothing)\b/i`. -/
def hasDefinitiveTerm (lower : List Char) : Bool :=
  someMatchWB true (mAlt
    [mLitS "always", mLitS "never", mLitS "all", mLitS "every",
     mLitS "none", mSeqs [mLitS "no", mWsStar, mLitS "one"],
     mLitS "everyone", mLitS "everything", mLitS "nothing"]) lower

/-- `/\b(announced|declared|implemented|enacted|passed|approved|rejected|banned|allowed|required|mandated)\b/i`. -/
def hasPolicyTerm (lower : List Char) : Bool :=
  someMatchWB true (mAltLits
    ["announced", "declared", "implemented", "enacted", "passed",
     "approved", "rejected", "banned", "allowed", "required", "mandated"])
    lower

/-- `/\b(commemorate|memorial|monument|anniversary|unveiled|displayed|portraits|walk of fame)\b/i`. -/
def hasCommemorativeTerm (lower : List Char) : Bool :=
  someMatchWB true (mAltLits
    ["commemorate", "memorial", "monument", "anniversary", "unveiled",
     "displayed", "portraits", "walk of fame"]) lower

/-- `/\b(lincoln memorial|white house|national mall|potomac river|arlington national cemetery|memorial bridge|west wing|oval office)\b/i`. -/
def hasLocationTerm (lower : List Char) : Bool :=
  someMatchWB true (mAltLits
    ["lincoln memorial", "white house", "national mall", "potomac river",
     "arlington national cemetery", "memorial bridge", "west wing",
     "oval office"]) lower

/-- `/\b(congressional approval|federal law|exemption|designated area|preeminent historical|lasting significance)\b/i`. -/
def hasGovLegalTerm (lower : List Char) : Bool :=
  someMatchWB true (mAltLits
    ["congressional approval", "federal law", "exemption",
     "designated area", "preeminent historical", "lasting significance"])
    lower

/-- `/\b(believe|think|feel|hope|wish|want|should|must|need|might|could|possibly|perhaps|maybe)\b/i`. -/
def hasOpinionTerm (lower : List Char) : Bool :=
  someMatchWB true (mAltLits
    ["believe", "think", "feel", "hope", "wish", "want", "should", "must",
     "need", "might", "could", "possibly", "perhaps", "maybe"]) lower

/-- The matches of `/\b[A-Z]{3,}\b/g`: the maximal word runs made of
uppercase letters only, of length at least 3 (the boundaries force a match
to be a whole run). -/
def allCapsWords (s : List Char) : List (List Char) :=
  (wordRuns s).filter (fun run => run.all isUpperAZ && 3 ≤ run.length)

/-- `scoreClaimLikelihood` (heuristic confidence of one trimmed sentence):
weighted keyword/pattern signals, penalties, a small bonus above `0.3`,
clamped into `[0,1]`. -/
def scoreClaimLikelihood (cfg : ClaimExtractionConfig) (sentence : String) : ℚ :=
  let chars := sentence.toList
  let lower := chars.map Char.toLower
  let words := splitWsJS lower
  let verbHits := words.countP (fun w => cfg.factual_verbs.any (fun v => v.toList = w))
  let markerHits := cfg.claim_markers.countP (fun mk => containsSub mk.toList lower)
  let s1 : ℚ := (verbHits : ℚ) * 2/10 + (markerHits : ℚ) * 3/10
  let s2 := s1 + (cond (hasStatisticalPattern lower) (2/10) 0)
  let s3 := s2 + (cond (hasScientificTerm lower) (1/10) 0)
  let s4 := s3 + (cond (hasComparativeTerm lower) (1/10) 0)
  let s5 := s4 + (cond (hasTemporalCausalTerm lower) (15/100) 0)
  let s6 := s5 + (cond (hasDefinitiveTerm lower) (1/10) 0)
  let s7 := s6 + (cond (hasPolicyTerm lower) (1/10) 0)
  let s8 := s7 + (cond (hasCommemorativeTerm lower) (15/100) 0)
  let s9 := s8 + (cond (hasLocationTerm lower) (1/10) 0)
  let s10 := s9 + (cond (hasGovLegalTerm lower) (15/100) 0)
  let s11 := s10 - (cond (hasOpinionTerm lower) (2/10) 0)
  let s12 := s11 -
    (if ((allCapsWords chars).filter (fun w => w.length > 5)).length > 1
     then 1/10 else 0)
  let s13 := s12 - (cond ((chars.head?.map isLowerAZ).getD false) (1/10) 0)
  let score := s13 - (if chars.length < 20 then 1/10 else 0)
  let withBonus := if score > 3/10 then score + 5/100 else score
  max 0 (min 1 withBonus)

/-- The sentence-splitting scan of `tokenizeSentences`: the regex loop over
`/([.!?])\s+/g` pushes the trimmed text up to and including each such
punctuation mark and resumes after the whitespace run; the trimmed remainder
is pushed when non-empty.  Fuelled; every step consumes at least one
character, so `fuel = l.length + 1` suffices. -/
def splitOnPunctWsGo : Nat → List Char → List Char → List (List Char)
  | 0, acc, rest =>
    let rem := trimList (acc.reverse ++ rest)
    if rem = [] then [] else [rem]
  | _ + 1, acc, [] =>
    let rem := trimList acc.reverse
    if rem = [] then [] else [rem]
  | fuel + 1, acc, c :: r =>
    if (c = '.' || c = '!' || c = '?')
        && (r.head?.map isWs).getD false then
      trimList (acc.reverse ++ [c]) :: splitOnPunctWsGo fuel [] (r.dropWhile isWs)
    else splitOnPunctWsGo fuel (c :: acc) r

/-- See `splitOnPunctWsGo`. -/
def splitOnPunctWs (l : List Char) : List (List Char) :=
  splitOnPunctWsGo (l.length + 1) [] l

/-- The character class `[.!?\n;]` of the tokenizer fallback split. -/
def isSentenceEnder (c : Char) : Bool :=
  c = '.' || c = '!' || c = '?' || c = '\n' || c = ';'

/-- The scan behind `str.split(/[.!?\n;]+/)`: pieces between maximal runs of
sentence-ending characters (the flag records being inside such a run). -/
def splitOnSentenceEndersGo (inRun : Bool) (cur : List Char) :
    List Char → List (List Char)
  | [] => [cur.reverse]
  | c :: r =>
    if isSentenceEnder c then
      if inRun then splitOnSentenceEndersGo true [] r
      else cur.reverse :: splitOnSentenceEndersGo true [] r
    else splitOnSentenceEndersGo false (c :: cur) r

/-- `str.split(/[.!?\n;]+/)` of the tokenizer fallback. -/
def splitOnSentenceEnders (s : List Char) : List (List Char) :=
  splitOnSentenceEndersGo false [] s

/-- The abbreviation placeholder `__ABBREV_i__`. -/
def abbrevPlaceholder (i : Nat) : List Char :=
  ("__ABBREV_" ++ toString i ++ "__").toList

/-- `ClaimExtractor.tokenizeSentences`: empty input yields no sentences;
otherwise abbreviations are protected by placeholders, the text is split on
punctuation-plus-whitespace, placeholders are restored and the trimmed
sentences of length at least `min(min_claim_length, 15)` are kept; when that
leaves nothing, a simpler split on `[.!?\n;]+` with a 15-character floor is
used. -/
def tokenizeSentences (cfg : ClaimExtractionConfig) (text : String) :
    List (List Char) :=
  let chars := text.toList
  if chars = [] then []
  else
    let protectedChars := cfg.abbreviations.enum.foldl
      (fun acc p => replaceAll p.2.toList (abbrevPlaceholder p.1) acc) chars
    let rawSentences := splitOnPunctWs protectedChars
    let restore (sen : List Char) : List Char :=
      cfg.abbreviations.enum.foldl
        (fun acc p => replaceAll (abbrevPlaceholder p.1) p.2.toList acc) sen
    let result := rawSentences.filterMap (fun sen =>
      let cleaned := trimList (restore sen)
      if min cfg.min_claim_length 15 ≤ cleaned.length then some cleaned else none)
    if result = [] then
      (splitOnSentenceEnders (restore protectedChars)).filterMap (fun piece =>
        let t := trimList piece
        if 15 ≤ t.length then some t else none)
    else result

/-- A `ClaimCandidate` as produced by the extractor. -/
structure ClaimCandidate where
  text : String
  confidence : ℚ
  method : String
  position : Int
deriving DecidableEq, Repr

/-- Descending-confidence order used to model
`sort((a, b) => b.confidence - a.confidence)` (a sort by non-increasing
confidence). -/
def confDesc (a b : ClaimCandidate) : Prop := b.confidence ≤ a.confidence

instance : DecidableRel confDesc :=
  fun a b => inferInstanceAs (Decidable (b.confidence ≤ a.confidence))

instance : IsTotal ClaimCandidate confDesc :=
  ⟨fun a b => le_total b.confidence a.confidence⟩

instance : IsTrans ClaimCandidate confDesc :=
  ⟨fun _ _ _ hab hbc => le_trans hbc hab⟩

/-- `ClaimExtractor.extractClaimsHeuristic`: tokenize, keep the trimmed
sentences within the configured length bounds whose likelihood reaches
`0.25`, sort by descending confidence and keep the top 100. -/
def extractClaimsHeuristic (cfg : ClaimExtractionConfig) (text : String) :
    List ClaimCandidate :=
  let sentences := tokenizeSentences cfg text
  let claims := sentences.filterMap (fun sentence =>
    let trimmed := trimList sentence
    if trimmed.length < cfg.min_claim_length
        || trimmed.length > cfg.max_claim_length then none
    else
      let confidence := scoreClaimLikelihood cfg (String.mk trimmed)
      if 25/100 ≤ confidence then
        some (⟨String.mk trimmed, confidence, "heuristic",
          indexOfSub trimmed text.toList⟩ : ClaimCandidate)
      else none)
  (claims.insertionSort confDesc).take 100

/-- `ClaimExtractor.evaluateHeuristicConfidence`: average claim confidence
plus a statistical-content bonus and a multiple-high-confidence bonus, minus
a too-few-claims penalty, clamped into `[0,1]`; `0` for no claims. -/
def evaluateHeuristicConfidence
    (claims : List ClaimCandidate) (originalText : String) : ℚ :=
  if claims = [] then 0
  else
    let avgConfidence := (claims.map (fun c => c.confidence)).sum / (claims.length : ℚ)
    let statisticalClaims := (claims.filter
      (fun c => hasStatisticalPattern (lowerChars c.text))).length
    let statisticalBonus := min (3/10) ((statisticalClaims : ℚ) * 8/100)
    let textLength : ℚ := (originalText.toList.length : ℚ)
    let claimsRatio := (claims.length : ℚ) / max 1 (textLength / 300)
    let lengthPenalty := max 0 (2/10 - claimsRatio)
    let highConfidenceClaims := (claims.filter (fun c => 6/10 ≤ c.confidence)).length
    let highConfidenceBonus := min (2/10) ((highConfidenceClaims : ℚ) * 5/100)
    max 0 (min 1 (avgConfidence + statisticalBonus + highConfidenceBonus - lengthPenalty))

/-- The exact-text `combineAndDeduplicateClaims` (first extractor variant):
AI claims whose lowercased text was not seen yet are appended to the
heuristic list; sort by descending confidence, top 100. -/
def combineAndDeduplicateClaims (heuristicClaims aiClaims : List ClaimCandidate) :
    List ClaimCandidate :=
  let start : List ClaimCandidate × List (List Char) :=
    (heuristicClaims, heuristicClaims.map (fun c => lowerChars c.text))
  let combined := aiClaims.foldl
    (fun acc aiClaim =>
      let normalizedText := lowerChars aiClaim.text
      if acc.2.contains normalizedText then acc
      else (acc.1 ++ [aiClaim], acc.2 ++ [normalizedText]))
    start
  (combined.1.insertionSort confDesc).take 100

/-- `calculateSimilarity` (second extractor variant): Jaccard similarity of
the lowercase whitespace-token sets of the two texts.  (When both token sets
are empty the JS code computes `0/0 = NaN`, for which every comparison is
false; the rational model returns `0`, for which the `> 0.8` comparison is
equally false, so the dedup behaviour agrees.) -/
def calculateSimilarity (text1 text2 : String) : ℚ :=
  let words1 := ((splitWsJS (lowerChars text1)).map String.mk).toFinset
  let words2 := ((splitWsJS (lowerChars text2)).map String.mk).toFinset
  ((words1 ∩ words2).card : ℚ) / ((words1 ∪ words2).card : ℚ)

/-- The similarity-based `combineAndDeduplicateClaims` (second extractor
variant): keep a claim only when no already-kept claim is more than
0.8-similar; sort by descending confidence, top 20. -/
def combineAndDeduplicateClaimsBySimilarity
    (heuristicClaims aiClaims : List ClaimCandidate) : List ClaimCandidate :=
  let allClaims := heuristicClaims ++ aiClaims
  let uniqueClaims := allClaims.foldl
    (fun unique claim =>
      if unique.any (fun existing => 8/10 < calculateSimilarity claim.text existing.text)
      then unique
      else unique ++ [claim])
    []
  (uniqueClaims.insertionSort confDesc).take 20

/-- A caller-supplied document value: the pipeline is only defined over
strings; `null`/`undefined` model the malformed inputs of interest. -/
inductive JSVal where
  | str (s : String)
  | nullV
  | undefV
deriving DecidableEq, Repr

/-- `ClaimExtractor.extractClaims`: the first statement evaluates
`text.length`, so a `null`/`undefined` document raises a `TypeError` before
any guard runs.  For strings: heuristic extraction; in `hybrid` mode an
aggregate-confidence check decides whether the AI path is consulted.  The AI
extraction (`extractClaimsAI` - network call, response parsing ladder,
caching) is represented by its resulting claim list `aiClaims` (it returns
`[]` on any failure). -/
def extractClaims (cfg : ClaimExtractionConfig) (document : JSVal)
    (aiClaims : List ClaimCandidate) : Except String (List ClaimCandidate) :=
  match document with
  | .nullV => .error "TypeError: Cannot read properties of null"
  | .undefV => .error "TypeError: Cannot read properties of undefined"
  | .str text =>
    let heuristicClaims := extractClaimsHeuristic cfg text
    if cfg.method = "heuristic" then .ok heuristicClaims
    else
      let heuristicConfidence := evaluateHeuristicConfidence heuristicClaims text
      if cfg.heuristic_threshold ≤ heuristicConfidence then .ok heuristicClaims
      else .ok (combineAndDeduplicateClaims heuristicClaims aiClaims)

/-! ### The superseded candidate scorer `scoreClaimCandidate` -/

/-- `ClaimExtractor.analyzeStructure`: structural score of a cleaned
sentence in `[0,1]` (word count via `split(/\s+/)`, commas, digits,
prepositional phrases `/\b(in|at|on|by|from|to|with|under|over|between|among|during|after|before)\b/i`,
penalties for very short or exclamation-heavy sentences). -/
def analyzeStructure (cleaned : List Char) : ℚ :=
  let wordCount := (splitWsJS cleaned).length
  let s1 : ℚ := 6/10 +
    (if 5 ≤ wordCount ∧ wordCount ≤ 30 then 25/100
     else if 30 < wordCount ∧ wordCount ≤ 50 then 15/100 else 0)
  let s2 := s1 + (cond (containsSub [','] cleaned) (15/100) 0)
  let s3 := s2 + (cond (cleaned.any Char.isDigit) (2/10) 0)
  let s4 := s3 +
    (cond (someMatchWB true (mAltLits
        ["in", "at", "on", "by", "from", "to", "with", "under", "over",
         "between", "among", "during", "after", "before"])
        (cleaned.map Char.toLower)) (15/100) 0)
  let s5 := s4 - (if wordCount < 4 then 2/10 else 0)
  let score := s5 - (if cleaned.countP (fun c => c = '!') > 2 then 15/100 else 0)
  max 0 (min 1 score)

/-- The comma-separated digit groups `(?:,\d+)*` of the number pattern:
maximal list of full `,digits` groups and the remainder (fuelled; each group
consumes at least two characters, so `fuel = l.length` suffices). -/
def commaGroupsGo : Nat → List Char → List (List Char) × List Char
  | 0, l => ([], l)
  | fuel + 1, l =>
    match l with
    | ',' :: r =>
      if (r.head?.map Char.isDigit).getD false then
        let ds := r.takeWhile Char.isDigit
        let (gs, rest) := commaGroupsGo fuel (r.dropWhile Char.isDigit)
        ((',' :: ds) :: gs, rest)
      else ([], ',' :: r)
    | _ => ([], l)

/-- See `commaGroupsGo`. -/
def commaGroups (l : List Char) : List (List Char) × List Char :=
  commaGroupsGo l.length l

/-- One match of `/\b(\d+(?:,\d+)*(?:\.\d+)?)\b/` starting at a digit with a
word boundary before it: greedy integer digits and comma groups, an optional
fraction kept only when the trailing boundary still holds, and a last comma
group dropped when that is the only way to restore the trailing boundary
(the remainder then starts with the non-word `,` or `.`). -/
def numberMatchAt (l : List Char) : Option (List Char × List Char) :=
  let intPart := l.takeWhile Char.isDigit
  let r1 := l.dropWhile Char.isDigit
  let (groups, r2) := commaGroups r1
  match r2 with
  | '.' :: r3 =>
    if (r3.head?.map Char.isDigit).getD false then
      let frac := r3.takeWhile Char.isDigit
      let r4 := r3.dropWhile Char.isDigit
      if remBoundaryOK r4 then
        some (intPart ++ groups.flatten ++ '.' :: frac, r4)
      else some (intPart ++ groups.flatten, r2)
    else some (intPart ++ groups.flatten, r2)
  | _ =>
    if remBoundaryOK r2 then some (intPart ++ groups.flatten, r2)
    else
      match groups.reverse with
      | [] => none
      | g :: gsRev => some (intPart ++ gsRev.reverse.flatten, g ++ r2)

/-- All matches of the number pattern, scanning left to right with word
boundaries (fuelled; each match consumes at least one character). -/
def numberMatchesGo : Nat → Option Char → List Char → List (List Char)
  | 0, _, _ => []
  | _ + 1, _, [] => []
  | fuel + 1, prev, l@(c :: r) =>
    if boundaryBeforeOK prev && c.isDigit then
      match numberMatchAt l with
      | some (tok, rest) => tok :: numberMatchesGo fuel (some (tok.getLastD c)) rest
      | none => numberMatchesGo fuel (some c) r
    else numberMatchesGo fuel (some c) r

/-- The number tokens matched in a sentence. -/
def numberMatches (s : List Char) : List (List Char) :=
  numberMatchesGo (s.length + 1) none s

/-- Digit run to natural number. -/
def digitsToNat (ds : List Char) : Nat :=
  ds.foldl (fun n c => n * 10 + (c.toNat - 48)) 0

/-- `parseFloat(numStr.replace(/,/g, ''))` for a matched number token. -/
def parseNumber (tok : List Char) : ℚ :=
  let noCommas := tok.filter (fun c => c ≠ ',')
  let intDigits := noCommas.takeWhile (fun c => c ≠ '.')
  let fracDigits := (noCommas.dropWhile (fun c => c ≠ '.')).drop 1
  (digitsToNat intDigits : ℚ) + (digitsToNat fracDigits : ℚ) / (10 ^ fracDigits.length : ℚ)

/-- `ClaimExtractor.hasLargeNumberWithUnit`: some matched number reaches the
threshold and some configured unit occurs in the lowercased sentence. -/
def hasLargeNumberWithUnit (cfg : ClaimExtractionConfig) (cleaned : List Char) :
    Bool :=
  let lowerSentence := cleaned.map Char.toLower
  (numberMatches cleaned).any (fun tok =>
    cfg.large_number_threshold ≤ parseNumber tok
      && cfg.large_number_units.any (fun u => containsSub u.toList lowerSentence))

/-- `/\b[A-Z][a-z]+(?:\s+[A-Z][a-z]+)+\b/` (multi-word capitalised named
entity), applied case-sensitively. -/
def hasNamedEntity (cleaned : List Char) : Bool :=
  someMatchWB true
    (mSeqs [mOne isUpperAZ, mClsPlus isLowerAZ,
            mPlusOf (mSeqs [mClsPlus isWs, mOne isUpperAZ, mClsPlus isLowerAZ])])
    cleaned

/-- The six `datePatterns` of `scoreClaimCandidate`: month names, abbreviated
month plus day, `\b\d{4}\b` years, `\d{1,2}/\d{1,2}/\d{2,4}` dates, weekday
names, and `(last|this|next)\s+(week|...)`; all but the numeric two carry
`i` and are matched on the lowercased sentence. -/
def hasDateReference (cleaned : List Char) : Bool :=
  let lower := cleaned.map Char.toLower
  someMatchWB true (mAltLits
      ["january", "february", "march", "april", "may", "june", "july",
       "august", "september", "october", "november", "december"]) lower
  || someMatchWB false
      (mSeqs [mAltLits ["jan", "feb", "mar", "apr", "may", "jun", "jul",
                        "aug", "sep", "sept", "oct", "nov", "dec"],
              mOpt (mLitS "."), mWsPlus, mOne Char.isDigit]) lower
  || someMatchWB true
      (mSeqs [mOne Char.isDigit, mOne Char.isDigit, mOne Char.isDigit,
              mOne Char.isDigit]) cleaned
  || someMatchWB true
      (mSeqs [mRep Char.isDigit 1 2, mLitS "/", mRep Char.isDigit 1 2,
              mLitS "/", mRep Char.isDigit 2 4]) cleaned
  || someMatchWB true (mAltLits
      ["monday", "tuesday", "wednesday", "thursday", "friday", "saturday",
       "sunday"]) lower
  || someMatchWB true
      (mSeqs [mAltLits ["last", "this", "next"], mWsPlus,
              mAltLits ["week", "month", "year", "monday", "tuesday",
                        "wednesday", "thursday", "friday"]]) lower

/-- The result of `scoreClaimCandidate` (the `signals` debug record is
omitted; each signal is recomputed where needed). -/
structure CandidateScore where
  isClaim : Bool
  confidence : ℚ
deriving DecidableEq, Repr

/-- `ClaimExtractor.scoreClaimCandidate`: length guards, the `"\\?$"`
exclusion (the only `exclude_patterns` entry with an effect - a match of any
other pattern falls through without action), weighted signals with an
opinion multiplier, normalization by 2, and the acceptance rule, which also
rejects any cleaned sentence ending in `?`. -/
def scoreClaimCandidate (cfg : ClaimExtractionConfig) (sentence : String) :
    CandidateScore :=
  let chars := sentence.toList
  if (trimList chars).length < cfg.min_claim_length then ⟨false, 0⟩
  else
    let cleaned := trimList chars
    let lower := cleaned.map Char.toLower
    if cleaned.length > cfg.max_claim_length then ⟨false, 0⟩
    else if cfg.exclude_patterns.contains "\\?$" && endsWithChar cleaned '?' then
      ⟨false, 0⟩
    else
      let hasOpinionMarker := cfg.opinion_markers.any
        (fun m => containsSub (lowerChars m) lower)
      let factualVerb := cfg.factual_verbs.any
        (fun v => someMatchWB true (mLit (lowerChars v)) lower)
      let claimMarker := cfg.claim_markers.any
        (fun m => containsSub (lowerChars m) lower)
      let percentage := cfg.percentage_keywords.any
          (fun k => containsSub (lowerChars k) lower)
        || someMatch (mSeqs [mOne Char.isDigit, mLitS "%"]) cleaned
      let largeNumber := hasLargeNumberWithUnit cfg cleaned
      let namedEntity := hasNamedEntity cleaned
      let dateReference := hasDateReference cleaned
      let quotation := containsSub ['"'] cleaned || containsSub ['“'] cleaned
        || containsSub ['”'] cleaned
      let verbScore : ℚ := cond factualVerb (45/100) 0
      let afterOpinion := cond hasOpinionMarker (verbScore * 7/10) verbScore
      let c1 := afterOpinion + (cond claimMarker (35/100) 0)
      let c2 := c1 + (cond percentage (25/100) 0)
      let c3 := c2 + (cond largeNumber (22/100) 0)
      let c4 := c3 + (cond namedEntity (15/100) 0)
      let c5 := c4 + (cond dateReference (12/100) 0)
      let c6 := c5 + (cond quotation (12/100) 0)
      let confidenceScore := c6 + analyzeStructure cleaned * 18/100
      let normalizedConfidence := min confidenceScore 2 / 2
      let multipleSignals :=
        2 ≤ ([percentage, largeNumber, namedEntity, dateReference,
              quotation].countP id)
      let singleStrongSignal := percentage || largeNumber
      let isClaim :=
        (factualVerb || claimMarker || decide multipleSignals || singleStrongSignal)
          && decide (10/100 ≤ normalizedConfidence)
          && !endsWithChar cleaned '?'
      ⟨isClaim, normalizedConfidence⟩

/-! ## Basic facts about the scorer arithmetic -/

unseal Rat.mul Rat.inv Rat.add Rat.sub

set_option maxRecDepth 200000

theorem componentEntries_names (c : Components) :
    ∀ e ∈ componentEntries c,
      e.1 ∈ ["fact_checker", "source_credibility", "scholarly", "coherence"] := by
  intro e he
  simp only [componentEntries, List.mem_filterMap] at he
  obtain ⟨p, hp, hmap⟩ := he
  have hname : e.1 = p.1 := by
    cases h2 : p.2 with
    | none => simp [h2] at hmap
    | some s => simp [h2] at hmap; simp [← hmap]
  simp only [List.mem_cons, List.not_mem_nil, or_false] at hp
  rcases hp with h | h | h | h <;> simp [h] at hname ⊢ <;> simp [hname]

theorem weights_pos_of_entry (c : Components) :
    ∀ e ∈ componentEntries c, 0 < weights e.1 := by
  intro e he
  have h := componentEntries_names c e he
  simp only [List.mem_cons, List.not_mem_nil, or_false] at h
  rcases h with h | h | h | h <;> simp [weights, h]

theorem weighted_sum_lower (l : List (String × SourceScore)) (lo : ℚ)
    (hlo : ∀ e ∈ l, lo ≤ e.2.score) :
    lo * (l.map (fun e => weights e.1)).sum ≤
      (l.map (fun e => e.2.score * weights e.1)).sum ∨
    ∃ e ∈ l, weights e.1 < 0 := by
  induction l with
  | nil => left; simp
  | cons a t ih =>
    by_cases hw : 0 ≤ weights a.1
    · rcases ih (fun e he => hlo e (List.mem_cons_of_mem a he)) with h | h
      · left
        simp only [List.map_cons, List.sum_cons]
        have h1 : lo * weights a.1 ≤ a.2.score * weights a.1 :=
          mul_le_mul_of_nonneg_right (hlo a (List.mem_cons_self a t)) hw
        calc lo * (weights a.1 + (t.map (fun e => weights e.1)).sum)
            = lo * weights a.1 + lo * (t.map (fun e => weights e.1)).sum := by ring
          _ ≤ a.2.score * weights a.1 + (t.map (fun e => e.2.score * weights e.1)).sum := by
              exact add_le_add h1 h
      · right; obtain ⟨e, he, hne⟩ := h; exact ⟨e, List.mem_cons_of_mem a he, hne⟩
    · right; exact ⟨a, List.mem_cons_self a t, lt_of_not_le hw⟩

theorem weighted_sum_upper (l : List (String × SourceScore)) (hi : ℚ)
    (hhi : ∀ e ∈ l, e.2.score ≤ hi) :
    (l.map (fun e => e.2.score * weights e.1)).sum ≤
      hi * (l.map (fun e => weights e.1)).sum ∨
    ∃ e ∈ l, weights e.1 < 0 := by
  induction l with
  | nil => left; simp
  | cons a t ih =>
    by_cases hw : 0 ≤ weights a.1
    · rcases ih (fun e he => hhi e (List.mem_cons_of_mem a he)) with h | h
      · left
        simp only [List.map_cons, List.sum_cons]
        have h1 : a.2.score * weights a.1 ≤ hi * weights a.1 :=
          mul_le_mul_of_nonneg_right (hhi a (List.mem_cons_self a t)) hw
        calc a.2.score * weights a.1 + (t.map (fun e => e.2.score * weights e.1)).sum
            ≤ hi * weights a.1 + hi * (t.map (fun e => weights e.1)).sum :=
              add_le_add h1 h
          _ = hi * (weights a.1 + (t.map (fun e => weights e.1)).sum) := by ring
      · right; obtain ⟨e, he, hne⟩ := h; exact ⟨e, List.mem_cons_of_mem a he, hne⟩
    · right; exact ⟨a, List.mem_cons_self a t, lt_of_not_le hw⟩

theorem totalWeight_pos (c : Components) (hne : componentEntries c ≠ []) :
    0 < ((componentEntries c).map (fun e => weights e.1)).sum := by
  have hpos := weights_pos_of_entry c
  revert hpos hne
  generalize componentEntries c = l
  intro hne hpos
  match l with
  | [] => exact absurd rfl hne
  | a :: t =>
    simp only [List.map_cons, List.sum_cons]
    have h1 : 0 < weights a.1 := hpos a (List.mem_cons_self a t)
    have h2 : 0 ≤ (t.map (fun e => weights e.1)).sum := by
      apply List.sum_nonneg
      intro x hx
      simp only [List.mem_map] at hx
      obtain ⟨e, he, hex⟩ := hx
      exact hex ▸ le_of_lt (hpos e (List.mem_cons_of_mem a he))
    linarith

theorem jsRound_mono {a b : ℚ} (h : a ≤ b) : jsRound a ≤ jsRound b := by
  unfold jsRound
  exact_mod_cast Int.floor_le_floor (by linarith)

theorem calculateFinalScore_all_neutral (c : Components)
    (h : ∀ e ∈ componentEntries c, e.2.score = 5) : calculateFinalScore c = 5 := by
  unfold calculateFinalScore
  by_cases hne : componentEntries c = []
  · simp [hne]
  · have htw := totalWeight_pos c hne
    rw [if_neg (ne_of_gt htw)]
    have hmap : (componentEntries c).map (fun e => e.2.score * weights e.1)
        = (componentEntries c).map (fun e => 5 * weights e.1) := by
      apply List.map_congr_left
      intro e he
      rw [h e he]
    rw [hmap]
    have hsum : ((componentEntries c).map (fun e => 5 * weights e.1)).sum
        = 5 * ((componentEntries c).map (fun e => weights e.1)).sum := by
      induction componentEntries c with
      | nil => simp
      | cons a t ih => simp only [List.map_cons, List.sum_cons, ih]; ring
    rw [hsum, mul_div_assoc, div_self (ne_of_gt htw), mul_one]
    decide

theorem sum_all_eq (l : List ℚ) (v : ℚ) (h : ∀ x ∈ l, x = v) :
    l.sum = v * l.length := by
  induction l with
  | nil => simp
  | cons a t ih =>
    simp only [List.sum_cons, List.length_cons, h a (List.mem_cons_self a t)]
    rw [ih (fun x hx => h x (List.mem_cons_of_mem a hx))]
    push_cast
    ring

theorem calculateOverallConfidence_all_low (c : Components)
    (h : ∀ e ∈ componentEntries c, e.2.confidence = "low") :
    calculateOverallConfidence c = "low" := by
  unfold calculateOverallConfidence
  set confs := ((componentEntries c).filter
      (fun e => e.2.confidence ≠ "")).map (fun e => confidenceValue e.2.confidence)
    with hconfs
  by_cases hne : confs = []
  · simp [hne]
  · rw [if_neg hne]
    have hall : ∀ x ∈ confs, x = 3/10 := by
      intro x hx
      rw [hconfs] at hx
      simp only [List.mem_map, List.mem_filter] at hx
      obtain ⟨e, ⟨he, _⟩, hx⟩ := hx
      rw [← hx, h e he]
      decide
    have hlen : 0 < confs.length := List.length_pos.mpr hne
    have hsum := sum_all_eq confs (3/10) hall
    rw [hsum]
    have hlenq : (confs.length : ℚ) ≠ 0 := by exact_mod_cast Nat.pos_iff_ne_zero.mp hlen
    rw [mul_div_assoc, div_self hlenq, mul_one]
    norm_num

theorem calculateOverrideScore_ne_zero (relationship : String) :
    calculateOverrideScore relationship ≠ 0 := by
  unfold calculateOverrideScore
  split_ifs <;> norm_num

/-! ## The claims -/

/-- C1 (amended): for every components map in which some subset of sources
reports a numeric score, the aggregate `final` value computed by the
Aggregating Scorer lies within `[round(min(scores)), round(max(scores))]` of
the reported numeric scores (with `lo` the minimum and `hi` the maximum,
characterised as reported scores bounding all reported scores).  The
original interval `[min(scores), max(scores)]` holds whenever all reported
scores are integers but fails for fractional scores, see the
counterexample. -/
theorem aggregate_final_within_rounded_bounds (c : Components) (lo hi : ℚ)
    (hlo : lo ∈ reportedScores c) (hhi : hi ∈ reportedScores c)
    (hb : ∀ s ∈ reportedScores c, lo ≤ s ∧ s ≤ hi) :
    jsRound lo ≤ calculateFinalScore c ∧ calculateFinalScore c ≤ jsRound hi := by
  have hne : componentEntries c ≠ [] := by
    intro hnil
    rw [reportedScores, hnil] at hlo
    exact absurd hlo (List.not_mem_nil lo)
  have htw := totalWeight_pos c hne
  have hwpos := weights_pos_of_entry c
  have hlo' : ∀ e ∈ componentEntries c, lo ≤ e.2.score := by
    intro e he
    exact (hb e.2.score (List.mem_map_of_mem (fun e => e.2.score) he)).1
  have hhi' : ∀ e ∈ componentEntries c, e.2.score ≤ hi := by
    intro e he
    exact (hb e.2.score (List.mem_map_of_mem (fun e => e.2.score) he)).2
  have hlow := weighted_sum_lower (componentEntries c) lo hlo'
  have hup := weighted_sum_upper (componentEntries c) hi hhi'
  rcases hlow with hlow | ⟨e, he, hneg⟩
  swap
  · exact absurd (hwpos e he) (not_lt_of_lt hneg)
  rcases hup with hup | ⟨e, he, hneg⟩
  swap
  · exact absurd (hwpos e he) (not_lt_of_lt hneg)
  unfold calculateFinalScore
  rw [if_neg (ne_of_gt htw)]
  constructor
  · exact jsRound_mono ((le_div_iff₀ htw).mpr hlow)
  · exact jsRound_mono ((div_le_iff₀ htw).mpr hup)

/-- C1 witness: a fact-checker score 9 and a credibility score 2 give a final
within `[round 2, round 9] = [2, 9]`. -/
theorem aggregate_final_within_rounded_bounds_witness :
    jsRound 2 ≤ calculateFinalScore
        ⟨some ⟨9, "high", none⟩, some ⟨2, "low", none⟩, none, none⟩
      ∧ calculateFinalScore
        ⟨some ⟨9, "high", none⟩, some ⟨2, "low", none⟩, none, none⟩ ≤ jsRound 9 :=
  aggregate_final_within_rounded_bounds
    ⟨some ⟨9, "high", none⟩, some ⟨2, "low", none⟩, none, none⟩ 2 9
    (by decide) (by decide) (by decide)

/-- C1 counterexample: a single reported score of 4.4 rounds down to a final
of 4, which lies strictly below the minimum (= maximum) reported score, so
`final` does not lie within `[min(scores), max(scores)]` as the claim
states it. -/
theorem aggregate_final_outside_exact_bounds_cex :
    reportedScores ⟨some ⟨22/5, "high", none⟩, none, none, none⟩ = [22/5]
      ∧ calculateFinalScore ⟨some ⟨22/5, "high", none⟩, none, none, none⟩ < 22/5 := by
  decide

/-- C2: when every enabled adapter fails (each settled outcome is an
exception, converted by the catch branches into `{score: 5, confidence:
"low", error}` components) - in particular when no adapter is enabled at all -
`scoreClaim` returns `final = 5` and `confidence = "low"`; and with all four
adapters enabled and failing, all four components carry the error. -/
theorem neutral_fallback_all_adapters_fail (enabled : EnabledSources)
    (m1 m2 m3 m4 : String) :
    (scoreClaim enabled ⟨.error m1, .error m2, .error m3, .error m4⟩).final = 5
    ∧ (scoreClaim enabled ⟨.error m1, .error m2, .error m3, .error m4⟩).confidence
        = "low"
    ∧ (scoreClaim ⟨true, true, true, true⟩
          ⟨.error m1, .error m2, .error m3, .error m4⟩).components
        = ⟨some ⟨5, "low", some m1⟩, some ⟨5, "low", some m2⟩,
           some ⟨5, "low", some m3⟩, some ⟨5, "low", some m4⟩⟩ := by
  have hcomp : ∀ e ∈ componentEntries (scoreClaim enabled
      ⟨.error m1, .error m2, .error m3, .error m4⟩).components,
      e.2.score = 5 ∧ e.2.confidence = "low" := by
    intro e he
    simp only [scoreClaim, componentEntries, List.mem_filterMap, List.mem_cons,
      List.not_mem_nil, or_false, scoreFromFactCheckers, scoreFromCredibility,
      scoreFromScholarly, scoreFromCoherence] at he
    obtain ⟨p, hp, hmap⟩ := he
    rcases hp with h | h | h | h <;> subst h <;>
      revert hmap <;> cases enabled.fact_checker <;> cases enabled.source_credibility <;>
      cases enabled.scholarly <;> cases enabled.coherence <;>
      simp <;> intro hmap <;> simp [← hmap]
  refine ⟨?_, ?_, ?_⟩
  · exact calculateFinalScore_all_neutral _ (fun e he => (hcomp e he).1)
  · exact calculateOverallConfidence_all_low _ (fun e he => (hcomp e he).2)
  · rfl

/-- C5: the claim's delivered `finalScore` (`override?.score ||
scores.final`) equals the override's score whenever the override is present
and carries a relationship-derived score (which is always 9, 2 or 5, hence
truthy), and equals the aggregate `final` when the override is `null`;
moreover every override the evaluator can return carries a
relationship-derived score. -/
theorem override_supersedes_final :
    (∀ (o : OverrideResult) (s : AggregateScoreResult),
      o.score = calculateOverrideScore o.relationship →
        finalScoreOf (some o) s = o.score)
    ∧ (∀ s : AggregateScoreResult, finalScoreOf none s = s.final)
    ∧ (∀ (l : List ValidOverride) (o : OverrideResult),
        checkOverrideCore l = some o →
          o.score = calculateOverrideScore o.relationship) := by
  refine ⟨?_, fun s => rfl, ?_⟩
  · intro o s h
    have hnz : o.score ≠ 0 := h ▸ calculateOverrideScore_ne_zero o.relationship
    simp [finalScoreOf, jsOrNum, hnz]
  · intro l o h
    match l with
    | [] => exact absurd h (by simp [checkOverrideCore])
    | v :: vs =>
      simp only [checkOverrideCore, Option.some.injEq] at h
      rw [← h]

/-- C5 witness: a supports-override (score 9) supersedes an aggregate final
of 3. -/
theorem override_supersedes_final_witness :
    finalScoreOf (some ⟨9, "high", "nih.gov", "u", "supports"⟩)
      ⟨⟨none, none, none, none⟩, 3, "low"⟩ = 9 :=
  override_supersedes_final.1 ⟨9, "high", "nih.gov", "u", "supports"⟩
    ⟨⟨none, none, none, none⟩, 3, "low"⟩ (by decide)

/-- C6: each adapter's thrown exception is caught and converted into a
`SourceScore` with score 5, confidence "low" and the failure message in
`error`; and each component of `scoreClaim` is a function of that adapter's
own outcome alone (so one adapter's failure never changes the other
components). -/
theorem adapter_error_isolated (enabled : EnabledSources)
    (outcomes : AdapterOutcomes) :
    ((scoreClaim enabled outcomes).components.fact_checker
        = if enabled.fact_checker then some (scoreFromFactCheckers outcomes.fact_checker)
          else none)
    ∧ ((scoreClaim enabled outcomes).components.source_credibility
        = if enabled.source_credibility then
            some (scoreFromCredibility outcomes.source_credibility)
          else none)
    ∧ ((scoreClaim enabled outcomes).components.scholarly
        = if enabled.scholarly then some (scoreFromScholarly outcomes.scholarly)
          else none)
    ∧ ((scoreClaim enabled outcomes).components.coherence
        = if enabled.coherence then some (scoreFromCoherence outcomes.coherence)
          else none)
    ∧ (∀ msg, scoreFromFactCheckers (.error msg) = ⟨5, "low", some msg⟩)
    ∧ (∀ msg, scoreFromCredibility (.error msg) = ⟨5, "low", some msg⟩)
    ∧ (∀ msg, scoreFromScholarly (.error msg) = ⟨5, "low", some msg⟩)
    ∧ (∀ msg, scoreFromCoherence (.error msg) = ⟨5, "low", some msg⟩) :=
  ⟨rfl, rfl, rfl, rfl, fun _ => rfl, fun _ => rfl, fun _ => rfl, fun _ => rfl⟩

/-- C8: the override score derived from the relationship is 9 for
`supports`, 2 for `contradicts`, 5 for `tangential`, and 5 for any other
value. -/
theorem override_score_by_relationship :
    calculateOverrideScore "supports" = 9
    ∧ calculateOverrideScore "contradicts" = 2
    ∧ calculateOverrideScore "tangential" = 5
    ∧ ∀ relationship : String, relationship ≠ "supports" →
        relationship ≠ "contradicts" → relationship ≠ "tangential" →
        calculateOverrideScore relationship = 5 := by
  refine ⟨by decide, by decide, by decide, ?_⟩
  intro r h1 h2 h3
  simp [calculateOverrideScore, h1, h2, h3]

/-- C8 witness: an unrecognised relationship value falls through to 5. -/
theorem override_score_by_relationship_witness :
    calculateOverrideScore "unrelated" = 5 :=
  override_score_by_relationship.2.2.2 "unrelated" (by decide) (by decide)
    (by decide)

/-- C9 (code bug): the extractor's spec says a malformed document (non-string
or empty) yields zero claims and never raises, but `extractClaims`
dereferences `text.length` before any guard, so a `null`/`undefined`
document raises a `TypeError` to the caller; the empty string is handled
(the tokenizer's falsy-guard yields no sentences, hence zero heuristic
claims). -/
theorem extractClaims_null_raises (cfg : ClaimExtractionConfig)
    (aiClaims : List ClaimCandidate) :
    extractClaims cfg JSVal.nullV aiClaims
        = Except.error "TypeError: Cannot read properties of null"
    ∧ extractClaims cfg JSVal.undefV aiClaims
        = Except.error "TypeError: Cannot read properties of undefined"
    ∧ extractClaimsHeuristic cfg "" = [] := by
  refine ⟨rfl, rfl, ?_⟩
  simp [extractClaimsHeuristic, tokenizeSentences]

theorem calculateSimilarity_symm (a b : String) :
    calculateSimilarity a b = calculateSimilarity b a := by
  simp only [calculateSimilarity]
  rw [Finset.inter_comm, Finset.union_comm]

theorem dedup_fold_pairwise :
    ∀ (l acc : List ClaimCandidate),
      List.Pairwise (fun p q => calculateSimilarity p.text q.text ≤ 8/10) acc →
      List.Pairwise (fun p q => calculateSimilarity p.text q.text ≤ 8/10)
        (l.foldl (fun unique claim =>
          if unique.any
              (fun existing => 8/10 < calculateSimilarity claim.text existing.text)
          then unique
          else unique ++ [claim]) acc)
  | [], _, h => h
  | c :: t, acc, h => by
    simp only [List.foldl_cons]
    by_cases hany : acc.any
        (fun existing => 8/10 < calculateSimilarity c.text existing.text) = true
    · rw [if_pos hany]
      exact dedup_fold_pairwise t acc h
    · rw [if_neg hany]
      apply dedup_fold_pairwise t
      rw [List.pairwise_append]
      refine ⟨h, List.pairwise_singleton _ _, ?_⟩
      intro a ha b hb
      simp only [List.mem_singleton] at hb
      subst hb
      simp only [List.any_eq_true, decide_eq_true_eq, not_exists, not_and] at hany
      have hle := not_lt.mp (hany a ha)
      rw [calculateSimilarity_symm]
      exact hle

/-- C7: the merged, ranked output of the similarity-based
`combineAndDeduplicateClaims` never contains two entries whose texts are
near-duplicates (token-set Jaccard similarity > 0.8): all pairs of output
entries have similarity at most 0.8, so of two near-duplicate claims coming
from the two merged lists at most one survives. -/
theorem dedup_no_near_duplicates (heuristicClaims aiClaims : List ClaimCandidate) :
    List.Pairwise (fun p q => calculateSimilarity p.text q.text ≤ 8/10)
      (combineAndDeduplicateClaimsBySimilarity heuristicClaims aiClaims)
    ∧ ∀ x y, x ∈ combineAndDeduplicateClaimsBySimilarity heuristicClaims aiClaims →
        y ∈ combineAndDeduplicateClaimsBySimilarity heuristicClaims aiClaims →
        8/10 < calculateSimilarity x.text y.text → x = y := by
  have hsymm : ∀ {x y : ClaimCandidate},
      calculateSimilarity x.text y.text ≤ 8/10 →
      calculateSimilarity y.text x.text ≤ 8/10 := by
    intro x y hxy
    rw [calculateSimilarity_symm]
    exact hxy
  have hfold := dedup_fold_pairwise (heuristicClaims ++ aiClaims) [] List.Pairwise.nil
  have hperm := List.perm_insertionSort confDesc
    ((heuristicClaims ++ aiClaims).foldl (fun unique claim =>
      if unique.any
          (fun existing => 8/10 < calculateSimilarity claim.text existing.text)
      then unique
      else unique ++ [claim]) [])
  have hpair : List.Pairwise (fun p q => calculateSimilarity p.text q.text ≤ 8/10)
      (combineAndDeduplicateClaimsBySimilarity heuristicClaims aiClaims) := by
    simp only [combineAndDeduplicateClaimsBySimilarity]
    exact ((hperm.pairwise_iff (fun h => hsymm h)).mpr hfold).sublist
      (List.take_sublist _ _)
  refine ⟨hpair, ?_⟩
  intro x y hx hy hsim
  by_contra hne
  exact absurd (hpair.forall (fun _ _ h => hsymm h) hx hy hne) (by simpa using hsim)

/-- C7 witness: merging two singleton lists carrying the same claim text
(similarity 1 > 0.8) leaves one surviving entry, and the two near-duplicate
members of the output must coincide. -/
theorem dedup_no_near_duplicates_witness :
    (⟨"the earth is flat no", 1/2, "heuristic", 0⟩ : ClaimCandidate)
        ∈ combineAndDeduplicateClaimsBySimilarity
          [⟨"the earth is flat no", 1/2, "heuristic", 0⟩]
          [⟨"the earth is flat no", 1/2, "ai", 0⟩]
    ∧ (8 : ℚ)/10 < calculateSimilarity "the earth is flat no" "the earth is flat no"
    ∧ (⟨"the earth is flat no", 1/2, "heuristic", 0⟩ : ClaimCandidate)
        = ⟨"the earth is flat no", 1/2, "heuristic", 0⟩ :=
  ⟨by decide, by decide,
    (dedup_no_near_duplicates
      [⟨"the earth is flat no", 1/2, "heuristic", 0⟩]
      [⟨"the earth is flat no", 1/2, "ai", 0⟩]).2 _ _
      (by decide) (by decide) (by decide)⟩

/-- C3 (amended): for every configuration and every sentence whose trimmed
form ends in `?`, `scoreClaimCandidate` yields `isClaim = false` regardless
of the other signals.  (The original claim's parenthetical - that such a
sentence is never accepted during extraction - fails: the heuristic
extraction path scores sentences with `scoreClaimLikelihood`, which does not
reject questions; see the counterexample.) -/
theorem question_sentence_never_claim_candidate (cfg : ClaimExtractionConfig)
    (sentence : String)
    (h : endsWithChar (trimList sentence.toList) '?' = true) :
    (scoreClaimCandidate cfg sentence).isClaim = false := by
  unfold scoreClaimCandidate
  by_cases h1 : (trimList sentence.toList).length < cfg.min_claim_length
  · rw [if_pos h1]
  · rw [if_neg h1]
    by_cases h2 : (trimList sentence.toList).length > cfg.max_claim_length
    · rw [if_pos h2]
    · rw [if_neg h2]
      by_cases h3 : (cfg.exclude_patterns.contains "\\?$"
          && endsWithChar (trimList sentence.toList) '?') = true
      · rw [if_pos h3]
      · rw [if_neg h3]
        simp only [h, Bool.not_true, Bool.and_false]

/-- C3 witness: the sample question is rejected by the candidate scorer. -/
theorem question_sentence_never_claim_candidate_witness :
    endsWithChar (trimList ("Do vaccines cause autism?").toList) '?' = true
    ∧ (scoreClaimCandidate foundationConfig "Do vaccines cause autism?").isClaim
        = false :=
  ⟨by decide,
    question_sentence_never_claim_candidate foundationConfig
      "Do vaccines cause autism?" (by decide)⟩

/-- C3 counterexample: a sentence ending in `?` that the heuristic
extraction path accepts as a claim (its `scoreClaimLikelihood` has no
question rejection), so a question is not `never accepted as a claim during
extraction`. -/
theorem question_sentence_extracted_cex :
    (extractClaimsHeuristic foundationConfig
      "Data shows the vaccine reduces hospitalization by 85 percent in 2023?").any
      (fun c => endsWithChar c.text.toList '?') = true := by
  decide

theorem scoreClaimLikelihood_nonneg (cfg : ClaimExtractionConfig) (s : String) :
    0 ≤ scoreClaimLikelihood cfg s := by
  unfold scoreClaimLikelihood
  exact le_max_left _ _

theorem scoreClaimLikelihood_le_one (cfg : ClaimExtractionConfig) (s : String) :
    scoreClaimLikelihood cfg s ≤ 1 := by
  unfold scoreClaimLikelihood
  exact max_le (by norm_num) (min_le_left _ _)

/-- C10: every claim candidate returned by the heuristic extraction path
(with the foundation configuration: `min_claim_length` 20,
`max_claim_length` 200) has confidence in `[0.25, 1]` and text length within
the configured bounds; the returned list is sorted by non-increasing
confidence and never exceeds 100 entries. -/
theorem heuristic_extraction_invariants (text : String) :
    (extractClaimsHeuristic foundationConfig text).length ≤ 100
    ∧ List.Pairwise (fun a b => b.confidence ≤ a.confidence)
        (extractClaimsHeuristic foundationConfig text)
    ∧ ∀ c ∈ extractClaimsHeuristic foundationConfig text,
        25/100 ≤ c.confidence ∧ c.confidence ≤ 1
        ∧ 20 ≤ c.text.toList.length ∧ c.text.toList.length ≤ 200 := by
  refine ⟨?_, ?_, ?_⟩
  · simp only [extractClaimsHeuristic]
    exact List.length_take_le _ _
  · simp only [extractClaimsHeuristic]
    have hsorted := List.sorted_insertionSort confDesc
      ((tokenizeSentences foundationConfig text).filterMap (fun sentence =>
        let trimmed := trimList sentence
        if trimmed.length < foundationConfig.min_claim_length
            || trimmed.length > foundationConfig.max_claim_length then none
        else
          let confidence := scoreClaimLikelihood foundationConfig (String.mk trimmed)
          if 25/100 ≤ confidence then
            some (⟨String.mk trimmed, confidence, "heuristic",
              indexOfSub trimmed text.toList⟩ : ClaimCandidate)
          else none))
    exact (hsorted.imp (fun h => h)).sublist (List.take_sublist _ _)
  · intro c hc
    simp only [extractClaimsHeuristic] at hc
    have hc2 := (List.perm_insertionSort confDesc _).subset
      (List.take_subset _ _ hc)
    simp only [List.mem_filterMap] at hc2
    obtain ⟨sentence, _, hf⟩ := hc2
    by_cases hlen : ((trimList sentence).length < foundationConfig.min_claim_length
        || (trimList sentence).length > foundationConfig.max_claim_length) = true
    · rw [if_pos hlen] at hf
      exact absurd hf (by simp)
    · rw [if_neg hlen] at hf
      by_cases hconf : 25/100 ≤ scoreClaimLikelihood foundationConfig
          (String.mk (trimList sentence))
      · rw [if_pos hconf] at hf
        have hc3 := Option.some.inj hf
        subst hc3
        simp only [Bool.or_eq_true, decide_eq_true_eq, not_or, not_lt] at hlen
        exact ⟨hconf, scoreClaimLikelihood_le_one _ _, hlen.1, hlen.2⟩
      · rw [if_neg hconf] at hf
        exact absurd hf (by simp)

/-- C10 witness: a concrete document whose single extracted candidate has
confidence 1 and text length 70. -/
theorem heuristic_extraction_invariants_witness :
    (⟨"Data shows the vaccine reduces hospitalization by 85 percent in 2023?",
        1, "heuristic", 0⟩ : ClaimCandidate)
      ∈ extractClaimsHeuristic foundationConfig
        "Data shows the vaccine reduces hospitalization by 85 percent in 2023?"
    ∧ (25/100 ≤ (1 : ℚ) ∧ (1 : ℚ) ≤ 1
       ∧ 20 ≤ ("Data shows the vaccine reduces hospitalization by 85 percent in 2023?" : String).toList.length
       ∧ ("Data shows the vaccine reduces hospitalization by 85 percent in 2023?" : String).toList.length ≤ 200) :=
  ⟨by decide,
    (heuristic_extraction_invariants
      "Data shows the vaccine reduces hospitalization by 85 percent in 2023?").2.2
      ⟨"Data shows the vaccine reduces hospitalization by 85 percent in 2023?",
        1, "heuristic", 0⟩ (by decide)⟩

/-! ## Facts about the normalizer's word-run machinery -/

theorem wordRunsGo_append_run (t : List Char) :
    ∀ (acc l : List Char), (∀ c ∈ t, isWordChar c = true) →
      wordRunsGo acc (t ++ l) = wordRunsGo (acc ++ t) l := by
  induction t with
  | nil => intro acc l _; simp
  | cons a t ih =>
    intro acc l hall
    have ha : isWordChar a = true := hall a (List.mem_cons_self a t)
    simp only [List.cons_append, wordRunsGo, ha, if_pos]
    show wordRunsGo (acc ++ [a]) (t ++ l) = _
    rw [ih (acc ++ [a]) l (fun c hc => hall c (List.mem_cons_of_mem a hc))]
    simp

theorem wordRuns_of_all_word (t : List Char) (hne : t ≠ [])
    (hall : ∀ c ∈ t, isWordChar c = true) : wordRuns t = [t] := by
  have h := wordRunsGo_append_run t [] [] hall
  simp only [List.append_nil, List.nil_append] at h
  rw [wordRuns, h, wordRunsGo, if_neg hne]

theorem wordRuns_removeWordGo (w : List Char) (hw : w ≠ []) :
    ∀ (s run : List Char), (∀ c ∈ run, isWordChar c = true) →
      wordRuns (removeWordGo w run s)
        = (wordRunsGo run s).filter (fun r => decide (r ≠ w)) := by
  intro s
  induction s with
  | nil =>
    intro run hrun
    simp only [removeWordGo, wordRunsGo]
    by_cases hrw : run = w
    · have hne : run ≠ [] := hrw ▸ hw
      rw [if_pos hrw, if_neg hne]
      simp [hrw, wordRuns, wordRunsGo]
    · rw [if_neg hrw]
      by_cases hne : run = []
      · simp [hne, wordRuns, wordRunsGo]
      · rw [if_neg hne, wordRuns_of_all_word run hne hrun]
        simp [hrw]
  | cons c r ih =>
    intro run hrun
    by_cases hc : isWordChar c = true
    · simp only [removeWordGo, wordRunsGo, hc, if_pos]
      exact ih (run ++ [c]) (by
        intro d hd
        rcases List.mem_append.mp hd with h | h
        · exact hrun d h
        · simp only [List.mem_singleton] at h
          exact h ▸ hc)
    · have hc' : isWordChar c = false := by
        cases h : isWordChar c
        · rfl
        · exact absurd h hc
      simp only [removeWordGo, wordRunsGo, hc', Bool.false_eq_true, if_neg,
        if_false]
      have hX := ih [] (by intro d hd; exact absurd hd (List.not_mem_nil d))
      by_cases hrw : run = w
      · have hne : run ≠ [] := hrw ▸ hw
        rw [if_pos hrw, if_neg hne]
        have : wordRuns (c :: removeWordGo w [] r)
            = wordRuns (removeWordGo w [] r) := by
          simp [wordRuns, wordRunsGo, hc']
        rw [List.nil_append, this, hX]
        simp [hrw]
      · rw [if_neg hrw]
        by_cases hne : run = []
        · subst hne
          have : wordRuns (c :: removeWordGo w [] r)
              = wordRuns (removeWordGo w [] r) := by
            simp [wordRuns, wordRunsGo, hc']
          rw [List.nil_append, this, hX]
          simp
        · rw [if_neg hne]
          have hsplit : wordRuns (run ++ c :: removeWordGo w [] r)
              = run :: wordRuns (removeWordGo w [] r) := by
            rw [wordRuns, wordRunsGo_append_run run [] _ hrun, List.nil_append]
            simp [wordRunsGo, hc', if_neg hne, wordRuns]
          rw [hsplit, hX]
          simp [hrw]

theorem wordRuns_removeWord (w s : List Char) (hw : w ≠ []) :
    wordRuns (removeWord w s) = (wordRuns s).filter (fun r => decide (r ≠ w)) :=
  wordRuns_removeWordGo w hw s [] (by intro d hd; exact absurd hd (List.not_mem_nil d))

theorem wordRuns_foldl_removeWord (ws : List String) :
    ∀ (s : List Char), (∀ w ∈ ws, w.toList ≠ []) →
      wordRuns (ws.foldl (fun acc w => removeWord w.toList acc) s)
        = (wordRuns s).filter (fun r => ws.all (fun w => decide (r ≠ w.toList))) := by
  induction ws with
  | nil => intro s _; simp
  | cons w ws ih =>
    intro s hall
    simp only [List.foldl_cons]
    rw [ih (removeWord w.toList s) (fun v hv => hall v (List.mem_cons_of_mem w hv)),
      wordRuns_removeWord w.toList s (hall w (List.mem_cons_self w ws)),
      List.filter_filter]
    apply List.filter_congr
    intro r _
    simp only [List.all_cons, Bool.and_comm]

theorem wordRunsGo_mem (t : List Char) :
    ∀ (s run : List Char), t ∈ wordRunsGo run s →
      (∀ c ∈ run, isWordChar c = true) →
      t ≠ [] ∧ ∀ c ∈ t, isWordChar c = true ∧ (c ∈ run ∨ c ∈ s) := by
  intro s
  induction s with
  | nil =>
    intro run ht hrun
    simp only [wordRunsGo] at ht
    by_cases hne : run = []
    · rw [if_pos hne] at ht
      exact absurd ht (List.not_mem_nil t)
    · rw [if_neg hne] at ht
      simp only [List.mem_singleton] at ht
      subst ht
      exact ⟨hne, fun c hc => ⟨hrun c hc, Or.inl hc⟩⟩
  | cons c r ih =>
    intro run ht hrun
    by_cases hc : isWordChar c = true
    · simp only [wordRunsGo, hc, if_pos] at ht
      obtain ⟨hne, hmem⟩ := ih (run ++ [c]) ht (by
        intro d hd
        rcases List.mem_append.mp hd with h | h
        · exact hrun d h
        · simp only [List.mem_singleton] at h
          exact h ▸ hc)
      refine ⟨hne, fun d hd => ?_⟩
      obtain ⟨hdw, hdm⟩ := hmem d hd
      refine ⟨hdw, ?_⟩
      rcases hdm with h | h
      · rcases List.mem_append.mp h with h | h
        · exact Or.inl h
        · simp only [List.mem_singleton] at h
          exact Or.inr (h ▸ List.mem_cons_self c r)
      · exact Or.inr (List.mem_cons_of_mem c h)
    · have hc' : isWordChar c = false := by
        cases h : isWordChar c
        · rfl
        · exact absurd h hc
      simp only [wordRunsGo, hc', Bool.false_eq_true, if_false] at ht
      rcases List.mem_append.mp ht with h | h
      · by_cases hne : run = []
        · rw [if_pos hne] at h
          exact absurd h (List.not_mem_nil t)
        · rw [if_neg hne] at h
          simp only [List.mem_singleton] at h
          subst h
          exact ⟨hne, fun d hd => ⟨hrun d hd, Or.inl hd⟩⟩
      · obtain ⟨hne, hmem⟩ := ih [] h
          (by intro d hd; exact absurd hd (List.not_mem_nil d))
        refine ⟨hne, fun d hd => ?_⟩
        obtain ⟨hdw, hdm⟩ := hmem d hd
        refine ⟨hdw, Or.inr ?_⟩
        rcases hdm with h2 | h2
        · exact absurd h2 (List.not_mem_nil d)
        · exact List.mem_cons_of_mem c h2

theorem isWs_eq_false_of_isWordChar {c : Char} (h : isWordChar c = true) :
    isWs c = false := by
  cases hws : isWs c
  · rfl
  · simp only [isWs, Bool.or_eq_true, decide_eq_true_eq, or_assoc] at hws
    rcases hws with h2 | h2 | h2 | h2 | h2 | h2 <;> subst h2 <;>
      exact absurd h (by decide)

theorem mem_collapseWs {c : Char} (hc : isWs c = false) :
    ∀ {l : List Char}, c ∈ l → c ∈ collapseWs l := by
  intro l
  induction l with
  | nil => intro h; exact absurd h (List.not_mem_nil c)
  | cons a l ih =>
    intro h
    have hstep : collapseWs (a :: l) =
        if isWs a then
          (if (collapseWs l).head? = some ' ' then collapseWs l
           else ' ' :: collapseWs l)
        else a :: collapseWs l := rfl
    rcases List.mem_cons.mp h with h | h
    · subst h
      rw [hstep, if_neg (by simp [hc])]
      exact List.mem_cons_self c _
    · rw [hstep]
      by_cases ha : isWs a = true
      · rw [if_pos ha]
        by_cases hh : (collapseWs l).head? = some ' '
        · rw [if_pos hh]; exact ih h
        · rw [if_neg hh]; exact List.mem_cons_of_mem ' ' (ih h)
      · rw [if_neg ha]
        exact List.mem_cons_of_mem a (ih h)

theorem mem_dropWhile_of_neg {c : Char} {p : Char → Bool} {l : List Char}
    (hmem : c ∈ l) (hc : p c = false) : c ∈ l.dropWhile p := by
  have hsplit := List.takeWhile_append_dropWhile (p := p) (l := l)
  rw [← hsplit] at hmem
  rcases List.mem_append.mp hmem with h | h
  · have := List.mem_takeWhile_imp h
    rw [hc] at this
    exact absurd this (by simp)
  · exact h

theorem mem_trimList {c : Char} (hc : isWs c = false) {l : List Char}
    (hmem : c ∈ l) : c ∈ trimList l := by
  unfold trimList
  rw [List.mem_reverse]
  apply mem_dropWhile_of_neg _ hc
  rw [List.mem_reverse]
  exact mem_dropWhile_of_neg hmem hc

theorem simplifyClaim_ne_empty (claim : String)
    (h : ∃ t ∈ wordRuns (claim.toList.map Char.toLower),
      ∀ w ∈ fillerWords, t ≠ w.toList) :
    simplifyClaim claim ≠ "" := by
  obtain ⟨t, ht, hnf⟩ := h
  have hfl : ∀ w ∈ fillerWords, w.toList ≠ [] := by decide
  have hfold := wordRuns_foldl_removeWord fillerWords
    (claim.toList.map Char.toLower) hfl
  have htf : t ∈ wordRuns (fillerWords.foldl
      (fun acc w => removeWord w.toList acc) (claim.toList.map Char.toLower)) := by
    rw [hfold]
    refine List.mem_filter.mpr ⟨ht, ?_⟩
    rw [List.all_eq_true]
    intro w hw
    simpa using hnf w hw
  obtain ⟨hne, hmem⟩ := wordRunsGo_mem t _ [] htf
    (by intro d hd; exact absurd hd (List.not_mem_nil d))
  obtain ⟨c, hct⟩ := List.exists_mem_of_ne_nil t hne
  obtain ⟨hcw, hcm⟩ := hmem c hct
  have hcm2 : c ∈ fillerWords.foldl (fun acc w => removeWord w.toList acc)
      (claim.toList.map Char.toLower) := by
    rcases hcm with h | h
    · exact absurd h (List.not_mem_nil c)
    · exact h
  have hcws := isWs_eq_false_of_isWordChar hcw
  have hc3 : c ∈ trimList (collapseWs (fillerWords.foldl
      (fun acc w => removeWord w.toList acc) (claim.toList.map Char.toLower))) :=
    mem_trimList hcws (mem_collapseWs hcws hcm2)
  have hc4 : c ∈ (trimList (collapseWs (fillerWords.foldl
      (fun acc w => removeWord w.toList acc)
      (claim.toList.map Char.toLower)))).filter keepChar :=
    List.mem_filter.mpr ⟨hc3, by simp [keepChar, hcw]⟩
  intro hempty
  have hdata := congrArg String.data hempty
  simp only [simplifyClaim] at hdata
  rw [hdata] at hc4
  exact absurd hc4 (List.not_mem_nil c)

theorem classifyClaimType_mem_types (claim : String) :
    classifyClaimType claim
      ∈ ["health", "political", "scientific", "environmental", "economic",
         "other"] := by
  simp only [classifyClaimType]
  split_ifs <;> simp

/-- C4 (amended): the heuristic normalization's `claim_type` always resolves
to one of the six types (defaulting to `other`), and `normalized_claim` is
non-empty whenever the original claim contains at least one word (maximal
alphanumeric run) that is not a filler word.  The unconditional form of the
non-emptiness invariant fails: a non-empty claim consisting only of filler
words or punctuation simplifies to the empty string, see the
counterexample. -/
theorem normalize_nonempty_and_type_total (claim : String) :
    ((∃ t ∈ wordRuns (claim.toList.map Char.toLower),
        ∀ w ∈ fillerWords, t ≠ w.toList) →
      (normalizeHeuristic claim).normalized_claim ≠ "")
    ∧ (normalizeHeuristic claim).claim_type
        ∈ ["health", "political", "scientific", "environmental", "economic",
           "other"] :=
  ⟨fun h => simplifyClaim_ne_empty claim h, classifyClaimType_mem_types claim⟩

/-- C4 witness: a claim with a non-filler word keeps a non-empty normalized
form and gets a type from the six-value set. -/
theorem normalize_nonempty_and_type_total_witness :
    (normalizeHeuristic "Vaccines reduce deaths").normalized_claim ≠ ""
    ∧ (normalizeHeuristic "Vaccines reduce deaths").claim_type
        ∈ ["health", "political", "scientific", "environmental", "economic",
           "other"] :=
  ⟨(normalize_nonempty_and_type_total "Vaccines reduce deaths").1 (by decide),
    (normalize_nonempty_and_type_total "Vaccines reduce deaths").2⟩

/-- C4 counterexample: the non-empty claim `"the"` (a filler word) has an
empty `normalized_claim`, refuting the invariant that `normalized_claim` is
non-empty whenever `original_claim` is non-empty. -/
theorem normalize_empty_on_filler_cex :
    ("the" : String) ≠ ""
    ∧ (normalizeHeuristic "the").original_claim = "the"
    ∧ (normalizeHeuristic "the").normalized_claim = "" := by
  refine ⟨by decide, rfl, by decide⟩

end TruthCheck
